import Mathlib

/-!
# OpenSift: package impact model and the platform enumeration driver

A shallow embedding of

* `pkg/collector/internal/packageInfo.go` (`PackageInfo`, `GetGitlinkByPkg`,
  `CalculateImpact`), and
* `scripts/git-platforms-enumerator/main.go` (`dateFlag`, `platformList`, `main`),

followed by the properties of that code.

Conventions of the embedding.

* A Go `string` is a Lean `String`; every separator and digit the code looks at
  is ASCII, so working on characters or on bytes gives the same result.
* A Go `int` is a Lean `Int` (the code performs no integer arithmetic that
  could overflow; it only converts to `float64`).
* A Go pointer that may be `nil` is an `Option`.
* `float64` is `Float64` below: IEEE 754 binary64 with one representative for
  all NaNs.
* Calls that leave these two files (`Enumerate`, the database lookup,
  the logger) are recorded in an explicit trace, and their results are
  parameters.
-/

namespace OpenSift

/-! ## Go values used by both files -/

/-- A Go `error` value, identified by its message. -/
structure GoError where
  msg : String
  deriving DecidableEq, Repr

/-! ## `time`: the part of the Go standard library `dateFlag` relies on -/

namespace time

/-- A `time.Time` in UTC, given by its civil fields. -/
structure Time where
  Year : Int
  Month : Nat
  Day : Nat
  Hour : Nat
  Minute : Nat
  Second : Nat
  Nanosecond : Nat
  deriving DecidableEq, Repr

/-- The `isLeap` of package `time`. -/
def isLeap (year : Int) : Bool :=
  year % 4 == 0 && (year % 100 != 0 || year % 400 == 0)

/-- The `daysIn` of package `time`: the number of days of month `m` in `year`. -/
def daysIn (m : Nat) (year : Int) : Nat :=
  if m = 2 then (if isLeap year then 29 else 28)
  else if m = 4 ∨ m = 6 ∨ m = 9 ∨ m = 11 then 30
  else 31

/-- The byte test `'0' <= c && c <= '9'`. -/
def isDigitChar (c : Char) : Bool :=
  48 ≤ c.toNat && c.toNat ≤ 57

/-- The value `c - '0'` of a digit. -/
def digitVal (c : Char) : Nat :=
  c.toNat - 48

/-- The character `'0' + d`. -/
def digitChar (d : Nat) : Char :=
  Char.ofNat (48 + d)

/-- The `getnum` of package `time`: one or two leading digits; with `fixed`
exactly two are required. Returns the number and the rest of the input. -/
def getnum (s : List Char) (fixed : Bool) : Option (Nat × List Char) :=
  match s with
  | [] => none
  | [c0] =>
    if isDigitChar c0 then (if fixed then none else some (digitVal c0, []))
    else none
  | c0 :: c1 :: rest =>
    if isDigitChar c0 then
      if isDigitChar c1 then some (digitVal c0 * 10 + digitVal c1, rest)
      else if fixed then none
      else some (digitVal c0, c1 :: rest)
    else none

/-- The four-digit year of layout element `2006`: at least four bytes, the
first a digit, and `atoi` of the first four must consume all of them. -/
def getyear (s : List Char) : Option (Int × List Char) :=
  match s with
  | c0 :: c1 :: c2 :: c3 :: rest =>
    if isDigitChar c0 && isDigitChar c1 && isDigitChar c2 && isDigitChar c3 then
      some (((digitVal c0 * 1000 + digitVal c1 * 100 + digitVal c2 * 10 + digitVal c3 : Nat) : Int),
        rest)
    else none
  | _ => none

/-- The `skip` of package `time` for the one-byte literal `-`. -/
def skipDash (s : List Char) : Option (List Char) :=
  match s with
  | c :: rest => if c = '-' then some rest else none
  | [] => none

/-- The steps of `time.Parse` for the layout `2006-01-02` on the bytes of the
value: the year, `-`, a two-digit month in `1..12`, `-`, a two-digit day, nothing
after it, and the day must exist in that month of that year. The result is
midnight UTC of that day; `none` stands for a parse error. -/
def parseDateChars (value : List Char) : Option Time :=
  match getyear value with
  | none => none
  | some (year, s1) =>
    match skipDash s1 with
    | none => none
    | some s2 =>
      match getnum s2 true with
      | none => none
      | some (month, s3) =>
        if month ≤ 0 ∨ 12 < month then none
        else
          match skipDash s3 with
          | none => none
          | some s4 =>
            match getnum s4 true with
            | none => none
            | some (day, s5) =>
              if s5 ≠ [] then none
              else if day < 1 ∨ daysIn month year < day then none
              else some ⟨year, month, day, 0, 0, 0, 0⟩

/-- The bytes of the UTF-8 encoding of a character. -/
def utf8Bytes (c : Char) : List Nat :=
  let n := c.toNat
  if n < 0x80 then [n]
  else if n < 0x800 then [0xC0 + n / 64, 0x80 + n % 64]
  else if n < 0x10000 then [0xE0 + n / 4096, 0x80 + n / 64 % 64, 0x80 + n % 64]
  else [0xF0 + n / 262144, 0x80 + n / 4096 % 64, 0x80 + n / 64 % 64, 0x80 + n % 64]

/-- The digit of `lowerhex` for a value below 16. -/
def hexDigit (d : Nat) : Char :=
  if d < 10 then Char.ofNat (48 + d) else Char.ofNat (87 + d)

/-- The `quote` of package `time`: the text between double quotes, with a
backslash before `"` and `\\`, and every byte of a control or non-ASCII
character written `\x` and two hexadecimal digits. -/
def quote (s : List Char) : List Char :=
  ['"'] ++
    s.flatMap (fun c =>
      if 0x80 ≤ c.toNat ∨ c.toNat < 0x20 then
        (utf8Bytes c).flatMap (fun b => ['\\', 'x', hexDigit (b / 16), hexDigit (b % 16)])
      else if c = '"' ∨ c = '\\' then ['\\', c]
      else [c]) ++
    ['"']

/-- The tail of the message of a `*time.ParseError` whose `Message` is empty:
the layout, the rest of the value at the element that failed, and that element
of the layout. -/
def cannotParse (valueElem : List Char) (layoutElem : String) : List Char :=
  " as ".data ++ quote "2006-01-02".data ++ ": cannot parse ".data ++ quote valueElem ++
    " as ".data ++ quote layoutElem.data

/-- What follows ``parsing time "value"`` in the message of the error of
`time.Parse` for the layout `2006-01-02`, on a value `parseDateChars` rejects:
the first element that fails, in the order of the parser. -/
def parseFailure (value : List Char) : List Char :=
  match getyear value with
  | none => cannotParse value "2006"
  | some (_, s1) =>
    match skipDash s1 with
    | none => cannotParse s1 "-"
    | some s2 =>
      match getnum s2 true with
      | none => cannotParse s2 "01"
      | some (month, s3) =>
        if month ≤ 0 ∨ 12 < month then ": month out of range".data
        else
          match skipDash s3 with
          | none => cannotParse s3 "-"
          | some s4 =>
            match getnum s4 true with
            | none => cannotParse s4 "02"
            | some (_, s5) =>
              if s5 ≠ [] then ": extra text: ".data ++ quote s5
              else ": day out of range".data

/-- The error `time.Parse` returns for a value that does not parse, a
`*time.ParseError`, given by its message. -/
def parseError (value : String) : GoError :=
  ⟨String.mk ("parsing time ".data ++ quote value.data ++ parseFailure value.data)⟩

/-- The function `time.Parse("2006-01-02", value)`. -/
def ParseDate (value : String) : Except GoError Time :=
  match parseDateChars value.data with
  | some t => .ok t
  | none => .error (parseError value)

/-- The decimal digits of `n`, most significant first (`fuel` bounds their number). -/
def utoa : Nat → Nat → List Char
  | 0, _ => []
  | fuel + 1, n => if n < 10 then [digitChar n] else utoa fuel (n / 10) ++ [digitChar (n % 10)]

/-- The `appendInt` of package `time`: the decimal form of `x`, zero-padded to
`width` digits, with a leading `-` for a negative number. -/
def appendInt (x : Int) (width : Nat) : List Char :=
  let u := x.natAbs
  let sign : List Char := if x < 0 then ['-'] else []
  if width = 2 ∧ u < 100 then
    sign ++ [digitChar (u / 10), digitChar (u % 10)]
  else if width = 4 ∧ u < 10000 then
    sign ++ [digitChar (u / 1000), digitChar (u / 100 % 10), digitChar (u / 10 % 10),
      digitChar (u % 10)]
  else
    let ds := utoa (u + 1) u
    sign ++ List.replicate (width - ds.length) '0' ++ ds

/-- The method `t.Format("2006-01-02")`. -/
def FormatDate (t : Time) : String :=
  String.mk (appendInt t.Year 4 ++ ['-'] ++ appendInt t.Month 2 ++ ['-'] ++ appendInt t.Day 2)

end time

/-! ## `scripts/git-platforms-enumerator/main.go` -/

/-- The type `dateFlag`, a `time.Time` under another name. -/
structure dateFlag where
  t : time.Time
  deriving DecidableEq, Repr

/-- The method `(*dateFlag).Set`: the flag after the call and the returned error
(`none` is Go's `nil`). -/
def dateFlag.Set (d : dateFlag) (value : String) : dateFlag × Option GoError :=
  match time.ParseDate value with
  | .error err => (d, some err)
  | .ok t => (⟨t⟩, none)

/-- The method `(*dateFlag).Time`. -/
def dateFlag.Time (d : dateFlag) : time.Time :=
  d.t

/-- The method `(*dateFlag).Type`. -/
def dateFlag.Type (_d : dateFlag) : String :=
  "date"

/-- The method `(*dateFlag).String`. -/
def dateFlag.String (d : dateFlag) : String :=
  time.FormatDate d.t

namespace enumerator

/-- The struct `enumerator.GithubEnumeratorConfig` as `main` fills it. -/
structure GithubEnumeratorConfig where
  MinStars : Int
  StarOverlap : Int
  RequireMinStars : Bool
  Query : String
  StartDate : time.Time
  EndDate : time.Time
  Workers : Int
  deriving DecidableEq, Repr

/-- The struct `enumerator.PypiBigQueryEnumeratorConfig`. -/
structure PypiBigQueryEnumeratorConfig where
  ProjectID : String
  deriving DecidableEq, Repr

/-- The struct `enumerator.PypiEnumeratorConfig`. -/
structure PypiEnumeratorConfig where
  Jobs : Int
  deriving DecidableEq, Repr

/-- An `enumerator.Enumerator` value, identified by the constructor call that
made it. -/
inductive Enumerator where
  | NewGithubEnumerator (cfg : GithubEnumeratorConfig)
  | NewGitlabEnumerator (take : Int) (jobs : Int)
  | NewBitBucketEnumerator (take : Int)
  | NewPypiBigQueryEnumerator (cfg : PypiBigQueryEnumeratorConfig)
  | NewPypiEnumerator (cfg : PypiEnumeratorConfig)
  | NewNpmEnumerator
  deriving DecidableEq, Repr

end enumerator

namespace writer

/-- A `writer.Writer` value, identified by the constructor call that made it
(`NewDatabaseWriter` is always given the default database context). -/
inductive Writer where
  | NewStdOutWriter
  | NewTextFileWriter (path : String)
  | NewDatabaseWriter (tablePrefix : String)
  deriving DecidableEq, Repr

end writer

/-- The command-line flags after `config.ParseFlags`. -/
structure Flags where
  Platforms : String
  OutputType : String
  OutputFilev : String
  Jobs : Int
  Take : Int
  MinStars : Int
  StarOverlap : Int
  RequireMinStars : Bool
  Query : String
  StartDate : dateFlag
  EndDate : dateFlag
  deriving DecidableEq, Repr

/-- The value type of the map `platformList`. -/
structure PlatformEntry where
  Enumerator : Unit → enumerator.Enumerator
  TablePrefix : String

/-- The map literal `platformList`, as its list of key/value pairs. -/
def platformTable (f : Flags) : List (String × PlatformEntry) :=
  [ ("github",
      { Enumerator := fun _ => .NewGithubEnumerator
          { MinStars := f.MinStars
            StarOverlap := f.StarOverlap
            RequireMinStars := f.RequireMinStars
            Query := f.Query
            StartDate := f.StartDate.Time
            EndDate := f.EndDate.Time
            Workers := f.Jobs }
        TablePrefix := "github" }),
    ("gitlab",
      { Enumerator := fun _ => .NewGitlabEnumerator f.Take f.Jobs
        TablePrefix := "gitlab" }),
    ("bitbucket",
      { Enumerator := fun _ => .NewBitBucketEnumerator f.Take
        TablePrefix := "bitbucket" }),
    ("pypi",
      { Enumerator := fun _ => .NewPypiBigQueryEnumerator
          { ProjectID := "magnetic-nimbus-425712-e3" }
        TablePrefix := "pypi" }),
    ("pypi_slow",
      { Enumerator := fun _ => .NewPypiEnumerator { Jobs := f.Jobs }
        TablePrefix := "pypi" }),
    ("npm",
      { Enumerator := fun _ => .NewNpmEnumerator
        TablePrefix := "npm" }) ]

/-- The map index expression `platformList[name]` with its `ok` result. -/
def platformList (f : Flags) (name : String) : Option PlatformEntry :=
  (platformTable f).lookup name

/-- The call `strings.Split(s, ",")`. -/
def stringsSplit (s : String) : List String :=
  (s.data.splitOn ',').map String.mk

/-- The argument of a `%s` verb in a log line. -/
inductive LogArg where
  | text (s : String)
  | zeroPlatformEntry
  deriving DecidableEq, Repr

/-- What `main` does that is visible outside it, in order. -/
inductive Event where
  | newEnumerator (en : enumerator.Enumerator)
  | newWriter (w : writer.Writer)
  | setWriter (en : enumerator.Enumerator) (w : writer.Writer)
  | enumerate (en : enumerator.Enumerator) (w : writer.Writer)
  | logErrorf (format : String) (arg : LogArg) (err : Option GoError)
  deriving DecidableEq, Repr

/-- How `main` ends. -/
inductive Outcome where
  | returned
  | panicked (msg : String)
  deriving DecidableEq, Repr

/-- The result of the `k`-th call of `Enumerate` (counting from 0), which may
depend on the enumerator and its writer; `none` is a `nil` error. -/
abbrev World := Nat → enumerator.Enumerator → writer.Writer → Option GoError

/-- The `switch *flagOutputType` of `main`; `none` is the `default` branch. -/
def selectWriter (f : Flags) (tablePrefix : String) : Option writer.Writer :=
  if f.OutputType = "stdout" then some .NewStdOutWriter
  else if f.OutputType = "file" then some (.NewTextFileWriter f.OutputFilev)
  else if f.OutputType = "db" then some (.NewDatabaseWriter tablePrefix)
  else none

/-- The loop `for _, platform := range platforms` of `main`; `k` counts the
calls of `Enumerate` made so far. -/
def mainLoop (f : Flags) (world : World) : Nat → List String → List Event × Outcome
  | _, [] => ([], .returned)
  | k, platform :: rest =>
    match platformList f platform with
    | none =>
      -- the `platform` of the `else` branch is the zero value of the map lookup
      ([.logErrorf "unknown platform %s" .zeroPlatformEntry none], .returned)
    | some entry =>
      let en := entry.Enumerator ()
      let tablePrefix := entry.TablePrefix
      match selectWriter f tablePrefix with
      | none => ([.newEnumerator en], .panicked "unknown output type")
      | some w =>
        let failure : List Event :=
          match world k en w with
          | some err => [.logErrorf "failed to enumerate %s" (.text platform) (some err)]
          | none => []
        let r := mainLoop f world (k + 1) rest
        ([.newEnumerator en, .newWriter w, .setWriter en w, .enumerate en w] ++ failure ++ r.1,
          r.2)

/-- The function `main`, after flag parsing. -/
def main (f : Flags) (world : World) : List Event × Outcome :=
  mainLoop f world 0 (stringsSplit f.Platforms)

/-- The `Enumerate` calls of a trace, in order. -/
def enumerateCalls : List Event → List (enumerator.Enumerator × writer.Writer)
  | [] => []
  | .enumerate en w :: rest => (en, w) :: enumerateCalls rest
  | _ :: rest => enumerateCalls rest

/-- The writers constructed in a trace, in order. -/
def writersBuilt : List Event → List writer.Writer
  | [] => []
  | .newWriter w :: rest => w :: writersBuilt rest
  | _ :: rest => writersBuilt rest

/-- The failed enumerations logged in a trace, in order: platform name and error. -/
def failuresLogged : List Event → List (String × GoError)
  | [] => []
  | .logErrorf format (.text platform) (some err) :: rest =>
    if format = "failed to enumerate %s" then (platform, err) :: failuresLogged rest
    else failuresLogged rest
  | _ :: rest => failuresLogged rest

/-- The keys of the map literal `platformList`. -/
def recognisedNames : List String :=
  ["github", "gitlab", "bitbucket", "pypi", "pypi_slow", "npm"]

/-- The output kinds the `switch` of `main` has a case for. -/
def recognisedOutputs : List String :=
  ["stdout", "file", "db"]

/-- The driver and the writer `main` pairs up for a platform name: the entry of
`platformList` and the writer of the output kind; `none` when either is
missing. -/
def callFor (f : Flags) (platform : String) : Option (enumerator.Enumerator × writer.Writer) :=
  match platformList f platform with
  | none => none
  | some entry =>
    match selectWriter f entry.TablePrefix with
    | none => none
    | some w => some (entry.Enumerator (), w)

/-- The flags at their defaults, with a platforms list and an output kind. -/
def flagsFor (platforms : String) (output : String) : Flags :=
  { Platforms := platforms, OutputType := output, OutputFilev := "", Jobs := 10, Take := 1000,
    MinStars := 100, StarOverlap := 5, RequireMinStars := false, Query := "is:public",
    StartDate := ⟨⟨2008, 1, 1, 0, 0, 0, 0⟩⟩, EndDate := ⟨⟨2024, 1, 1, 0, 0, 0, 0⟩⟩ }

/-- A world in which every enumeration succeeds. -/
def quietWorld : World := fun _ _ _ => none

/-- A world in which every enumeration fails. -/
def failingWorld : World := fun _ _ _ => some ⟨"rate limited"⟩

/-! ## `float64`: IEEE 754 binary64 with round-to-nearest-even -/

/-- A `float64`. The value of `fin neg m e` is `(-1)^neg * m * 2^e`; the results
of the operations below have `m < 2^53`, `-1074 ≤ e ≤ 971`, and `2^52 ≤ m`
unless `e = -1074` (zero and the subnormal numbers). All NaNs are one value. -/
inductive Float64 where
  | nan
  | inf (neg : Bool)
  | fin (neg : Bool) (m : Nat) (e : Int)
  deriving DecidableEq, Repr

namespace Float64

/-- Auxiliary to `ilog2`; `fuel` bounds the number of halvings. -/
def log2Aux : Nat → Nat → Nat
  | 0, _ => 0
  | fuel + 1, n => if n < 2 then 0 else log2Aux fuel (n / 2) + 1

/-- The position of the highest set bit: `2^(ilog2 n) ≤ n < 2^(ilog2 n + 1)` for `0 < n`. -/
def ilog2 (n : Nat) : Nat :=
  log2Aux n n

/-- The integer nearest to `n / d`, a tie going to the even one. -/
def divRoundEven (n d : Nat) : Nat :=
  let q := n / d
  let r := n % d
  if 2 * r < d then q
  else if d < 2 * r then q + 1
  else if q % 2 = 0 then q
  else q + 1

/-- The fraction `num / den` divided by `2^e`, as a numerator and a denominator. -/
def scale (num den : Nat) (e : Int) : Nat × Nat :=
  if 0 ≤ e then (num, den * 2 ^ e.toNat) else (num * 2 ^ (-e).toNat, den)

/-- The exponent `e` for which `num / den / 2^e` lies in `[2^52, 2^53)`, for
`0 < num` and `0 < den`: the difference of the bit lengths, lowered by one when
the quotient falls short. -/
def normExp (num den : Nat) : Int :=
  let e0 : Int := (ilog2 num : Int) - (ilog2 den : Int) - 52
  let s0 := scale num den e0
  if s0.1 / s0.2 < 2 ^ 52 then e0 - 1 else e0

/-- The binary64 nearest to `(-1)^neg * num / den` (ties to even), for `0 < den`:
the exponent is chosen so that the significand has 53 bits (or is the least
one, `-1074`), the significand is rounded, and a result above the largest
finite number is an infinity. -/
def round (neg : Bool) (num den : Nat) : Float64 :=
  if num = 0 then .fin neg 0 (-1074)
  else
    let e : Int := max (normExp num den) (-1074)
    let s := scale num den e
    let m := divRoundEven s.1 s.2
    if m = 2 ^ 53 then
      (if 971 < e + 1 then .inf neg else .fin neg (2 ^ 52) (e + 1))
    else if 971 < e then .inf neg
    else .fin neg m e

/-- The conversion `float64(z)` of an integer. -/
def ofInt (z : Int) : Float64 :=
  round (decide (z < 0)) z.natAbs 1

/-- The quotient `x / y` of two `float64` values. -/
def div : Float64 → Float64 → Float64
  | .nan, _ => .nan
  | _, .nan => .nan
  | .inf _, .inf _ => .nan
  | .inf s, .fin t _ _ => .inf (xor s t)
  | .fin s _ _, .inf t => .fin (xor s t) 0 (-1074)
  | .fin s m e, .fin t n f =>
    if n = 0 then (if m = 0 then .nan else .inf (xor s t))
    else
      let k := min e f
      round (xor s t) (m * 2 ^ (e - k).toNat) (n * 2 ^ (f - k).toNat)

/-- The 64 bits of a value (`math.Float64bits`); for the NaN they are those of
the NaN a division produces on amd64, the only way this code makes one. -/
def toBits : Float64 → Nat
  | .nan => 0xFFF8000000000000
  | .inf neg => (if neg then 2 ^ 63 else 0) + 0x7FF0000000000000
  | .fin neg m e =>
    (if neg then 2 ^ 63 else 0) +
      (if m < 2 ^ 52 then m else (e + 1075).toNat * 2 ^ 52 + (m - 2 ^ 52))

/-- The number a finite value stands for. -/
def toRat : Float64 → Option ℚ
  | .fin neg m e => some ((if neg then -1 else 1) * (m : ℚ) * (2 : ℚ) ^ e)
  | _ => none

/-- Neither a NaN nor an infinity. -/
def isFinite : Float64 → Bool
  | .fin _ _ _ => true
  | _ => false

end Float64

/-! ## `pkg/collector/internal/packageInfo.go` -/

namespace repository

/-- The type `repository.DistType`; it is declared outside these two files and
the code only stores it. -/
abbrev DistType := Int

/-- The type `repository.DistPackageTablePrefix`; it is declared outside these
two files and the code only passes it on. -/
abbrev DistPackageTablePrefix := String

/-- The fields of `repository.DistPackage` that `packageInfo.go` reads or
writes; each is a pointer. -/
structure DistPackage where
  Package : Option String
  Description : Option String
  HomePage : Option String
  Version : Option String
  DependsCount : Option Int
  GitLink : Option String
  deriving DecidableEq, Repr

end repository

namespace storage

/-- The database behind `storage.AppDatabaseContext`, as far as this code can
see it: what a lookup by package name in the table family of a prefix returns,
a record pointer (possibly `nil`) and an error (possibly `nil`). -/
structure AppDatabaseContext where
  distPackageByName :
    repository.DistPackageTablePrefix → String → Option repository.DistPackage × Option GoError

end storage

namespace repository

/-- A `DistPackageRepository`: a database context and the table prefix it was
opened with. -/
structure DistPackageRepository where
  ctx : storage.AppDatabaseContext
  tablePrefix : DistPackageTablePrefix

/-- The function `repository.NewDistPackageRepository`. -/
def NewDistPackageRepository (ac : storage.AppDatabaseContext)
    (tablePrefix : DistPackageTablePrefix) : DistPackageRepository :=
  ⟨ac, tablePrefix⟩

/-- The method `GetByName` of a `DistPackageRepository`. -/
def DistPackageRepository.GetByName (repo : DistPackageRepository) (name : String) :
    Option DistPackage × Option GoError :=
  repo.ctx.distPackageByName repo.tablePrefix name

end repository

namespace collector

/-- The struct `PackageInfo`. -/
structure PackageInfo where
  DirectDepends : List String
  IndirectDepends : List String
  DependsCount : Int
  Description : String
  Homepage : String
  Name : String
  PageRank : Float64
  Version : String
  Impact : Float64
  Gitlink : String
  «Type» : repository.DistType
  DistPackageTablePrefix : repository.DistPackageTablePrefix
  deriving DecidableEq, Repr

/-- One call of `log.Println(text, err)`. -/
structure LogLine where
  text : String
  err : Option GoError
  deriving DecidableEq, Repr

/-- How a method call ends: it returns, leaving the receiver in state `pkg`, or
it panics; in both cases `log` holds the lines printed before. -/
inductive Result where
  | returned (pkg : PackageInfo) (log : List LogLine)
  | panicked (msg : String) (log : List LogLine)
  deriving DecidableEq, Repr

/-- The run-time panic of dereferencing a `nil` pointer. -/
def nilDereference : String :=
  "runtime error: invalid memory address or nil pointer dereference"

/-- The function `NewPackageInfo`: a zero-valued `PackageInfo`. -/
def NewPackageInfo : PackageInfo :=
  { DirectDepends := [], IndirectDepends := [], DependsCount := 0, Description := "",
    Homepage := "", Name := "", PageRank := .fin false 0 (-1074), Version := "",
    Impact := .fin false 0 (-1074), Gitlink := "", «Type» := 0, DistPackageTablePrefix := "" }

/-- The method `GetGitlinkByPkg`. -/
def PackageInfo.GetGitlinkByPkg (pkg : PackageInfo) (ac : storage.AppDatabaseContext) : Result :=
  let repo := repository.NewDistPackageRepository ac pkg.DistPackageTablePrefix
  let (pkgInfo, err) := repo.GetByName pkg.Name
  let log1 : List LogLine :=
    if err ≠ none then [⟨"Error getting package info from database:", err⟩] else []
  match pkgInfo with
  | none => .panicked nilDereference log1
  | some info =>
    match info.GitLink with
    | some link => .returned { pkg with Gitlink := link } log1
    | none => .returned pkg (log1 ++ [⟨"Error getting package info from database:", err⟩])

/-- The method `CalculateImpact`. -/
def PackageInfo.CalculateImpact (pkg : PackageInfo) (count : Int) : PackageInfo :=
  { pkg with Impact := Float64.div (Float64.ofInt pkg.DependsCount) (Float64.ofInt count) }

end collector

/-! ## The bisection scheduler of the GitHub-style driver

`enumerator.NewGithubEnumerator` and the `Enumerate` method behind it live in
`pkg/linkenumerator/enumerator`, outside the two files embedded here; `main` only
constructs the driver. The definitions of this section follow sections 3, 4.2 and 4.4 of the
specification. -/

namespace scheduler

/-- Modelled from the spec: the `Record` of section 3 for a repository catalog;
of the attributes only the two the scheduler queries by are kept, the creation
date as a day number and the star count. The GitHub enumerator that produces
them is missing from these files. -/
structure Record where
  PlatformTablePrefix : String
  Identifier : String
  CreatedAt : Nat
  Stars : Nat
  deriving DecidableEq, Repr

/-- Modelled from the spec: the `EnumerationRange` of section 3, inclusive date
bounds, star bounds with an optional upper one, and the overlap; the scheduler
that creates the ranges is missing from these files. -/
structure EnumerationRange where
  StartDate : Nat
  EndDate : Nat
  MinStars : Nat
  MaxStars : Option Nat
  Overlap : Nat
  deriving DecidableEq, Repr

/-- Modelled from the spec: whether a record lies in a range (created between
`StartDate` and `EndDate`, stars at least `MinStars` and at most `MaxStars`
when present); the search API that decides it is missing from these files. -/
def EnumerationRange.contains (r : EnumerationRange) (x : Record) : Bool :=
  decide (r.StartDate ≤ x.CreatedAt) && decide (x.CreatedAt ≤ r.EndDate) &&
    decide (r.MinStars ≤ x.Stars) &&
    (match r.MaxStars with
     | none => true
     | some m => decide (x.Stars ≤ m))

/-- Modelled from the spec: step 2 of section 4.2, the probe of a range against
the simulated API, which reports the true match count; the API client is
missing from these files. -/
def probe (catalog : List Record) (r : EnumerationRange) : Nat :=
  (catalog.filter r.contains).length

/-- Modelled from the spec: the direct query of a range against the simulated
API, which returns at most `cap` results however many match (section 4.2,
"Problem"); the API client is missing from these files. -/
def query (cap : Nat) (catalog : List Record) (r : EnumerationRange) : List Record :=
  (catalog.filter r.contains).take cap

/-- Modelled from the spec: the configuration of section 4.1 that shapes the
enumeration space (`Query` is applied by the catalog, `Workers` only sets the
parallelism); the driver that reads it is missing from these files. -/
structure Config where
  MinStars : Nat
  StarOverlap : Nat
  RequireMinStars : Bool
  StartDate : Nat
  EndDate : Nat
  deriving DecidableEq, Repr

/-- Modelled from the spec: step 1 of section 4.2, the one range
`[StartDate, EndDate] × [MinStars, ∞)` the scheduler starts with. -/
def initialRange (cfg : Config) : EnumerationRange :=
  { StartDate := cfg.StartDate, EndDate := cfg.EndDate, MinStars := cfg.MinStars,
    MaxStars := none, Overlap := cfg.StarOverlap }

/-- Modelled from the spec: the "observed maximum star count" of section 4.2, the
highest star count among the records of a range (0 for an empty range); the API
client that reports it is missing from these files. -/
def maxStars (catalog : List Record) (r : EnumerationRange) : Nat :=
  ((catalog.filter r.contains).map (fun x => x.Stars)).foldr max 0

/-- Modelled from the spec: the star-count split of step 4 of section 4.2, for a
range of a single day that still reaches the cap; the scheduler is missing from
these files. With `top` the observed maximum star count of the range:

* the star interval is cut at a boundary halfway between the lower bound and
  `top`, and "a new lower-bound star bucket" is opened from that boundary up to
  `top` ("star-count buckets are bounded above by the observed maximum");
* "`Overlap` additional stars" are "subtracted from the new bucket's lower
  bound", as far as the bucket stays above the lower bound of the range it
  splits, so that it is a smaller range ("the recursion depth is finite");
* the rest of the range, below the boundary, is the other bucket. Its lower
  bound is the one of the range, except in the case the spec allows for a range
  that starts at `MinStars`: "if `RequireMinStars` is false, repositories
  exactly at `MinStars` may be excluded at the discretion of the overlap
  margin", here when `marginDrops` says so of the overlap, and then the bound is
  one higher; "if true, the lower star bound used for splitting must never
  exceed `MinStars`".

How the margin decides is not said in the spec, so `marginDrops` is a
parameter. -/
def starSplit (cfg : Config) (marginDrops : Nat → Bool) (r : EnumerationRange) (top : Nat) :
    List EnumerationRange :=
  let boundary := (r.MinStars + top) / 2 + 1
  let newLower := max (boundary - r.Overlap) (r.MinStars + 1)
  let dropBoundary :=
    !cfg.RequireMinStars && decide (r.MinStars = cfg.MinStars) && marginDrops r.Overlap
  let keptLower := if dropBoundary then r.MinStars + 1 else r.MinStars
  [ { r with MinStars := keptLower, MaxStars := some (boundary - 1) },
    { r with MinStars := newLower, MaxStars := some top } ]

/-- What a run of the scheduler has emitted, and whether it ran to its end
(`false`: the recursion budget was used up first). -/
structure Emission where
  records : List Record
  finished : Bool
  deriving DecidableEq, Repr

/-- Modelled from the spec: steps 2 to 5 of section 4.2 of the bisection
scheduler, which is missing from these files. A range with no result is dropped;
one with fewer results than the cap is queried directly and every record is
emitted; otherwise the date interval is bisected at its midpoint, or, when it
is a single day, the range is split on star count by `starSplit`. `fuel` bounds
the depth of the recursion. -/
def schedule (cfg : Config) (marginDrops : Nat → Bool) (cap : Nat) (catalog : List Record) :
    Nat → EnumerationRange → Emission
  | 0, _ => ⟨[], false⟩
  | fuel + 1, r =>
    let count := probe catalog r
    if count = 0 then ⟨[], true⟩
    else if count < cap then ⟨query cap catalog r, true⟩
    else if r.StartDate < r.EndDate then
      let mid := (r.StartDate + r.EndDate) / 2
      let a := schedule cfg marginDrops cap catalog fuel { r with EndDate := mid }
      let b := schedule cfg marginDrops cap catalog fuel { r with StartDate := mid + 1 }
      ⟨a.records ++ b.records, a.finished && b.finished⟩
    else
      (starSplit cfg marginDrops r (maxStars catalog r)).foldr
        (fun bucket acc =>
          let a := schedule cfg marginDrops cap catalog fuel bucket
          ⟨a.records ++ acc.records, a.finished && acc.finished⟩)
        ⟨[], true⟩

/-- Modelled from the spec: the `Enumerate` of the GitHub-style driver, the
scheduler run on the initial range; the driver is missing from these files. -/
def enumerate (cfg : Config) (marginDrops : Nat → Bool) (cap : Nat) (catalog : List Record)
    (fuel : Nat) : Emission :=
  schedule cfg marginDrops cap catalog fuel (initialRange cfg)

/-- The number of records of the catalog created on day `d` with `s` stars. -/
def cellCount (catalog : List Record) (d s : Nat) : Nat :=
  (catalog.filter (fun x => decide (x.CreatedAt = d) && decide (x.Stars = s))).length

end scheduler

/-- The error of the `i`-th `Enumerate` call of a run when that call is the one
for `platform`; `none` when the call succeeds. -/
def enumerateError (f : Flags) (world : World) (i : Nat) (platform : String) : Option GoError :=
  match callFor f platform with
  | none => none
  | some c => world i c.1 c.2

/-- The leading platform names of a list that `platformList` has an entry for. -/
def knownPrefix (platforms : List String) : List String :=
  platforms.takeWhile (fun p => decide (p ∈ recognisedNames))

namespace collector

/-- A package of the Debian table family with no source link yet. -/
def samplePackage : PackageInfo :=
  { NewPackageInfo with
    Name := "zlib", DependsCount := 7, DistPackageTablePrefix := "debian" }

/-- A database context in which no lookup finds a record. -/
def emptyDatabase : storage.AppDatabaseContext :=
  ⟨fun _ _ => (none, some ⟨"sql: no rows in result set"⟩)⟩

/-- A database context that holds a record for `zlib` under the prefix `debian`. -/
def zlibDatabase : storage.AppDatabaseContext :=
  ⟨fun tablePrefix name =>
    if tablePrefix = "debian" ∧ name = "zlib" then
      (some { Package := some "zlib", Description := none, HomePage := none, Version := none,
              DependsCount := none, GitLink := some "https://github.com/madler/zlib" }, none)
    else (none, some ⟨"sql: no rows in result set"⟩)⟩

end collector

/-! # Properties -/

/-! ## The platform table and the loop of `main` -/

theorem platformList_isSome_iff (f : Flags) (name : String) :
    (platformList f name).isSome = true ↔ name ∈ recognisedNames := by
  unfold platformList platformTable recognisedNames
  by_cases h1 : name = "github"
  · subst h1; simp [List.lookup]
  by_cases h2 : name = "gitlab"
  · subst h2; simp [List.lookup]
  by_cases h3 : name = "bitbucket"
  · subst h3; simp [List.lookup]
  by_cases h4 : name = "pypi"
  · subst h4; simp [List.lookup]
  by_cases h5 : name = "pypi_slow"
  · subst h5; simp [List.lookup]
  by_cases h6 : name = "npm"
  · subst h6; simp [List.lookup]
  have e1 : (name == "github") = false := by simpa using h1
  have e2 : (name == "gitlab") = false := by simpa using h2
  have e3 : (name == "bitbucket") = false := by simpa using h3
  have e4 : (name == "pypi") = false := by simpa using h4
  have e5 : (name == "pypi_slow") = false := by simpa using h5
  have e6 : (name == "npm") = false := by simpa using h6
  simp [List.lookup, e1, e2, e3, e4, e5, e6, h1, h2, h3, h4, h5, h6]

theorem platformList_eq_none_iff (f : Flags) (name : String) :
    platformList f name = none ↔ name ∉ recognisedNames := by
  rw [← platformList_isSome_iff f name]
  cases platformList f name <;> simp

theorem platformList_tablePrefix (f : Flags) (name : String) :
    (platformList f name).map (fun entry => entry.TablePrefix) =
      if name ∈ recognisedNames then some (if name = "pypi_slow" then "pypi" else name)
      else none := by
  unfold platformList platformTable recognisedNames
  by_cases h1 : name = "github"
  · subst h1; simp [List.lookup]
  by_cases h2 : name = "gitlab"
  · subst h2; simp [List.lookup]
  by_cases h3 : name = "bitbucket"
  · subst h3; simp [List.lookup]
  by_cases h4 : name = "pypi"
  · subst h4; simp [List.lookup]
  by_cases h5 : name = "pypi_slow"
  · subst h5; simp [List.lookup]
  by_cases h6 : name = "npm"
  · subst h6; simp [List.lookup]
  have e1 : (name == "github") = false := by simpa using h1
  have e2 : (name == "gitlab") = false := by simpa using h2
  have e3 : (name == "bitbucket") = false := by simpa using h3
  have e4 : (name == "pypi") = false := by simpa using h4
  have e5 : (name == "pypi_slow") = false := by simpa using h5
  have e6 : (name == "npm") = false := by simpa using h6
  simp [List.lookup, e1, e2, e3, e4, e5, e6, h1, h2, h3, h4, h5, h6]

theorem selectWriter_isSome_iff (f : Flags) (tablePrefix : String) :
    (selectWriter f tablePrefix).isSome = true ↔ f.OutputType ∈ recognisedOutputs := by
  unfold selectWriter recognisedOutputs
  by_cases h1 : f.OutputType = "stdout"
  · simp [h1]
  by_cases h2 : f.OutputType = "file"
  · simp [h2]
  by_cases h3 : f.OutputType = "db"
  · simp [h3]
  simp [h1, h2, h3]

theorem selectWriter_eq_none_iff (f : Flags) (tablePrefix : String) :
    selectWriter f tablePrefix = none ↔ f.OutputType ∉ recognisedOutputs := by
  rw [← selectWriter_isSome_iff f tablePrefix]
  cases selectWriter f tablePrefix <;> simp

theorem callFor_isSome (f : Flags) (platform : String)
    (hp : platform ∈ recognisedNames) (ho : f.OutputType ∈ recognisedOutputs) :
    ∃ c, callFor f platform = some c := by
  have h1 := (platformList_isSome_iff f platform).2 hp
  cases hpl : platformList f platform with
  | none => simp [hpl] at h1
  | some entry =>
    have h2 := (selectWriter_isSome_iff f entry.TablePrefix).2 ho
    cases hw : selectWriter f entry.TablePrefix with
    | none => simp [hw] at h2
    | some w => exact ⟨(entry.Enumerator (), w), by simp [callFor, hpl, hw]⟩

theorem mainLoop_spec (f : Flags) (world : World) (ho : f.OutputType ∈ recognisedOutputs) :
    ∀ (ps : List String) (k : Nat),
      (mainLoop f world k ps).2 = Outcome.returned ∧
      (enumerateCalls (mainLoop f world k ps).1).map some = (knownPrefix ps).map (callFor f) ∧
      (writersBuilt (mainLoop f world k ps).1).map some =
        (knownPrefix ps).map (fun p => (callFor f p).map Prod.snd) ∧
      failuresLogged (mainLoop f world k ps).1 =
        ((knownPrefix ps).enumFrom k).filterMap
          (fun ip => (enumerateError f world ip.1 ip.2).map (fun e => (ip.2, e))) := by
  intro ps
  induction ps with
  | nil => intro k; simp [mainLoop, enumerateCalls, writersBuilt, failuresLogged, knownPrefix]
  | cons p rest ih =>
    intro k
    cases hpl : platformList f p with
    | none =>
      have hp : p ∉ recognisedNames := (platformList_eq_none_iff f p).1 hpl
      simp [mainLoop, hpl, enumerateCalls, writersBuilt, failuresLogged, knownPrefix, hp]
    | some entry =>
      have hp : p ∈ recognisedNames := by
        have := (platformList_isSome_iff f p).1
        simp [hpl] at this
        exact this
      have h2 := (selectWriter_isSome_iff f entry.TablePrefix).2 ho
      cases hw : selectWriter f entry.TablePrefix with
      | none => simp [hw] at h2
      | some w =>
        obtain ⟨ih1, ih2, ih3, ih4⟩ := ih (k + 1)
        have hk : knownPrefix (p :: rest) = p :: knownPrefix rest := by
          simp [knownPrefix, hp]
        have hc : callFor f p = some (entry.Enumerator (), w) := by
          simp [callFor, hpl, hw]
        cases hwd : world k (entry.Enumerator ()) w with
        | none =>
          simp [mainLoop, hpl, hw, hwd, enumerateCalls, writersBuilt, failuresLogged, hk, hc,
            enumerateError, ih1, ih2, ih3, ih4, List.enumFrom]
        | some err =>
          simp [mainLoop, hpl, hw, hwd, enumerateCalls, writersBuilt, failuresLogged, hk, hc,
            enumerateError, ih1, ih2, ih3, ih4, List.enumFrom]

theorem stringsSplit_ne_nil (s : String) : stringsSplit s ≠ [] := by
  unfold stringsSplit
  intro h
  have h2 : s.data.splitOn ',' = [] := by simpa using h
  exact List.splitOnP_ne_nil _ _ h2

theorem knownPrefix_of_all_known (ps : List String) (h : ∀ p ∈ ps, p ∈ recognisedNames) :
    knownPrefix ps = ps := by
  unfold knownPrefix
  rw [List.takeWhile_eq_self_iff]
  intro p hp
  simpa using h p hp

theorem knownPrefix_append_unknown (pre post : List String) (bad : String)
    (hpre : ∀ p ∈ pre, p ∈ recognisedNames) (hbad : bad ∉ recognisedNames) :
    knownPrefix (pre ++ bad :: post) = pre := by
  induction pre with
  | nil => simp [knownPrefix, hbad]
  | cons p rest ih =>
    have hp : p ∈ recognisedNames := hpre p (by simp)
    have hrest : ∀ q ∈ rest, q ∈ recognisedNames := fun q hq => hpre q (by simp [hq])
    have := ih hrest
    simp only [knownPrefix] at this ⊢
    simp [List.takeWhile, hp, this]

theorem mem_knownPrefix (ps : List String) (p : String) (h : p ∈ knownPrefix ps) :
    p ∈ recognisedNames := by
  unfold knownPrefix at h
  simpa using List.mem_takeWhile_imp h

theorem callFor_db (f : Flags) (p : String) (hp : p ∈ recognisedNames) :
    (callFor { f with OutputType := "db" } p).map Prod.snd =
      some (writer.Writer.NewDatabaseWriter (if p = "pypi_slow" then "pypi" else p)) := by
  have h1 := platformList_tablePrefix { f with OutputType := "db" } p
  simp only [hp, if_true] at h1
  cases hpl : platformList { f with OutputType := "db" } p with
  | none => simp [hpl] at h1
  | some entry =>
    simp only [hpl, Option.map_some', Option.some.injEq] at h1
    simp [callFor, hpl, selectWriter, h1]

/-- C4 (as stated, refuted): with the platforms list `github,foo`, which holds the
unknown name `foo` in second place, `main` has built a writer and invoked
`Enumerate` for `github` before it aborts. -/
theorem C4_counterexample :
    "foo" ∈ stringsSplit (flagsFor "github,foo" "stdout").Platforms ∧
    "foo" ∉ recognisedNames ∧
    writersBuilt (main (flagsFor "github,foo" "stdout") quietWorld).1 =
      [writer.Writer.NewStdOutWriter] ∧
    (enumerateCalls (main (flagsFor "github,foo" "stdout") quietWorld).1).length = 1 := by
  decide

/-- C4 (amended): when the first name of the platforms list that is not a key of
`platformList` comes after the recognised names `pre`, and the output kind is
recognised (or `pre` is empty), `main` builds a writer and invokes `Enumerate`
for exactly the platforms of `pre`, in order, and then returns: nothing is built
or enumerated for the unknown name or for any name after it. With the unknown
name in first place no writer is built and no `Enumerate` is invoked. -/
theorem C4_abort_at_first_unknown (f : Flags) (world : World) (pre post : List String)
    (bad : String) (hs : stringsSplit f.Platforms = pre ++ bad :: post)
    (hpre : ∀ p ∈ pre, p ∈ recognisedNames) (hbad : bad ∉ recognisedNames)
    (ho : pre = [] ∨ f.OutputType ∈ recognisedOutputs) :
    (main f world).2 = Outcome.returned ∧
    (enumerateCalls (main f world).1).map some = pre.map (callFor f) ∧
    (writersBuilt (main f world).1).map some = pre.map (fun p => (callFor f p).map Prod.snd) ∧
    (pre = [] → enumerateCalls (main f world).1 = [] ∧ writersBuilt (main f world).1 = []) := by
  have key : (main f world).2 = Outcome.returned ∧
      (enumerateCalls (main f world).1).map some = pre.map (callFor f) ∧
      (writersBuilt (main f world).1).map some =
        pre.map (fun p => (callFor f p).map Prod.snd) := by
    rcases ho with hnil | ho
    · subst hnil
      have hpl : platformList f bad = none := (platformList_eq_none_iff f bad).2 hbad
      simp only [List.nil_append] at hs
      simp [main, hs, mainLoop, hpl, enumerateCalls, writersBuilt]
    · obtain ⟨h1, h2, h3, _⟩ := mainLoop_spec f world ho (stringsSplit f.Platforms) 0
      rw [hs, knownPrefix_append_unknown pre post bad hpre hbad, ← hs] at h2 h3
      exact ⟨h1, h2, h3⟩
  refine ⟨key.1, key.2.1, key.2.2, ?_⟩
  intro hnil
  subst hnil
  have h2 := key.2.1
  have h3 := key.2.2
  simp only [List.map_nil, List.map_eq_nil_iff] at h2 h3
  exact ⟨h2, h3⟩

/-- C4 (amended), at the list `github,foo` with output kind `stdout`. -/
theorem C4_abort_at_first_unknown_witness :
    (main (flagsFor "github,foo" "stdout") failingWorld).2 = Outcome.returned ∧
    (enumerateCalls (main (flagsFor "github,foo" "stdout") failingWorld).1).map some =
      ["github"].map (callFor (flagsFor "github,foo" "stdout")) ∧
    (writersBuilt (main (flagsFor "github,foo" "stdout") failingWorld).1).map some =
      ["github"].map (fun p => (callFor (flagsFor "github,foo" "stdout") p).map Prod.snd) ∧
    (["github"] = [] →
      enumerateCalls (main (flagsFor "github,foo" "stdout") failingWorld).1 = [] ∧
      writersBuilt (main (flagsFor "github,foo" "stdout") failingWorld).1 = []) :=
  C4_abort_at_first_unknown (flagsFor "github,foo" "stdout") failingWorld ["github"] [] "foo"
    (by decide) (by decide) (by decide) (Or.inr (by decide))

/-- C5: for an output kind other than `stdout`, `file` and `db`, and any platforms
list, `main` stops at the first platform of the list with a configuration error
and never builds a writer or invokes `Enumerate`: when the first name is a key
of `platformList` it constructs that driver and panics with
`unknown output type`, otherwise it logs `unknown platform` and returns. -/
theorem C5_unknown_output_stops_at_first (f : Flags) (world : World)
    (ho : f.OutputType ∉ ["stdout", "file", "db"]) :
    enumerateCalls (main f world).1 = [] ∧ writersBuilt (main f world).1 = [] ∧
    ∃ platform rest, stringsSplit f.Platforms = platform :: rest ∧
      ((platformList f platform = none ∧
          main f world =
            ([Event.logErrorf "unknown platform %s" LogArg.zeroPlatformEntry none],
              Outcome.returned)) ∨
        (∃ entry, platformList f platform = some entry ∧
          main f world =
            ([Event.newEnumerator (entry.Enumerator ())],
              Outcome.panicked "unknown output type"))) := by
  cases hs : stringsSplit f.Platforms with
  | nil => exact absurd hs (stringsSplit_ne_nil _)
  | cons platform rest =>
    cases hpl : platformList f platform with
    | none =>
      have hm : main f world =
          ([Event.logErrorf "unknown platform %s" LogArg.zeroPlatformEntry none],
            Outcome.returned) := by
        simp [main, hs, mainLoop, hpl]
      refine ⟨by simp [hm, enumerateCalls], by simp [hm, writersBuilt], platform, rest, rfl,
        Or.inl ⟨hpl, hm⟩⟩
    | some entry =>
      have hw : selectWriter f entry.TablePrefix = none :=
        (selectWriter_eq_none_iff f entry.TablePrefix).2 ho
      have hm : main f world =
          ([Event.newEnumerator (entry.Enumerator ())],
            Outcome.panicked "unknown output type") := by
        simp [main, hs, mainLoop, hpl, hw]
      refine ⟨by simp [hm, enumerateCalls], by simp [hm, writersBuilt], platform, rest, rfl,
        Or.inr ⟨entry, hpl, hm⟩⟩

/-- C5, at the list `github,npm` with the output kind `xml`. -/
theorem C5_unknown_output_stops_at_first_witness :
    enumerateCalls (main (flagsFor "github,npm" "xml") quietWorld).1 = [] ∧
    writersBuilt (main (flagsFor "github,npm" "xml") quietWorld).1 = [] ∧
    ∃ platform rest, stringsSplit (flagsFor "github,npm" "xml").Platforms = platform :: rest ∧
      ((platformList (flagsFor "github,npm" "xml") platform = none ∧
          main (flagsFor "github,npm" "xml") quietWorld =
            ([Event.logErrorf "unknown platform %s" LogArg.zeroPlatformEntry none],
              Outcome.returned)) ∨
        (∃ entry, platformList (flagsFor "github,npm" "xml") platform = some entry ∧
          main (flagsFor "github,npm" "xml") quietWorld =
            ([Event.newEnumerator (entry.Enumerator ())],
              Outcome.panicked "unknown output type"))) :=
  C5_unknown_output_stops_at_first (flagsFor "github,npm" "xml") quietWorld (by decide)

/-- C6: for a platforms list made only of keys of `platformList` and a recognised
output kind, `main` returns normally after invoking `Enumerate` exactly once per
listed platform, in list order, each time on the driver and writer of that
platform, whatever errors the calls return; the failures logged are exactly the
calls that returned an error, each with the name of its platform. -/
theorem C6_enumerate_once_per_platform (f : Flags) (world : World)
    (hp : ∀ p ∈ stringsSplit f.Platforms,
      p ∈ ["github", "gitlab", "bitbucket", "pypi", "pypi_slow", "npm"])
    (ho : f.OutputType ∈ ["stdout", "file", "db"]) :
    (main f world).2 = Outcome.returned ∧
    (enumerateCalls (main f world).1).map some = (stringsSplit f.Platforms).map (callFor f) ∧
    (enumerateCalls (main f world).1).length = (stringsSplit f.Platforms).length ∧
    failuresLogged (main f world).1 =
      (stringsSplit f.Platforms).enum.filterMap
        (fun ip => (enumerateError f world ip.1 ip.2).map (fun e => (ip.2, e))) := by
  obtain ⟨h1, h2, _, h4⟩ := mainLoop_spec f world ho (stringsSplit f.Platforms) 0
  rw [knownPrefix_of_all_known _ hp] at h2 h4
  refine ⟨h1, h2, ?_, h4⟩
  have := congrArg List.length h2
  simpa using this

/-- C6, at the list `github,npm` with output kind `stdout` in a world where every
enumeration fails: `main` still returns normally after two `Enumerate` calls, and
both failures are logged under the name of their platform. -/
theorem C6_enumerate_once_per_platform_witness :
    (main (flagsFor "github,npm" "stdout") failingWorld).2 = Outcome.returned ∧
    (enumerateCalls (main (flagsFor "github,npm" "stdout") failingWorld).1).map some =
      [callFor (flagsFor "github,npm" "stdout") "github",
        callFor (flagsFor "github,npm" "stdout") "npm"] ∧
    (enumerateCalls (main (flagsFor "github,npm" "stdout") failingWorld).1).length = 2 ∧
    failuresLogged (main (flagsFor "github,npm" "stdout") failingWorld).1 =
      [("github", ⟨"rate limited"⟩), ("npm", ⟨"rate limited"⟩)] :=
  have h := C6_enumerate_once_per_platform (flagsFor "github,npm" "stdout") failingWorld
    (by decide) (by decide)
  ⟨h.1, h.2.1.trans (by decide), h.2.2.1.trans (by decide), h.2.2.2.trans (by decide)⟩

/-- C8: `platformList` has an entry for exactly the six names `github`, `gitlab`,
`bitbucket`, `pypi`, `pypi_slow` and `npm`; the table prefix of an entry is its
own name, except for `pypi_slow` whose prefix is `pypi`; and with output kind
`db` the writers `main` builds are, in order, the database writers keyed by the
table prefix of each platform it reaches. -/
theorem C8_platform_table (f : Flags) (world : World) (name : String) :
    ((platformList f name).isSome = true ↔
      name ∈ ["github", "gitlab", "bitbucket", "pypi", "pypi_slow", "npm"]) ∧
    (platformList f name).map (fun entry => entry.TablePrefix) =
      (if name ∈ ["github", "gitlab", "bitbucket", "pypi", "pypi_slow", "npm"] then
        some (if name = "pypi_slow" then "pypi" else name)
      else none) ∧
    writersBuilt (main { f with OutputType := "db" } world).1 =
      (knownPrefix (stringsSplit f.Platforms)).map
        (fun p => writer.Writer.NewDatabaseWriter (if p = "pypi_slow" then "pypi" else p)) := by
  refine ⟨platformList_isSome_iff f name, platformList_tablePrefix f name, ?_⟩
  have ho : ({ f with OutputType := "db" } : Flags).OutputType ∈ recognisedOutputs := by
    simp [recognisedOutputs]
  obtain ⟨_, _, h3, _⟩ :=
    mainLoop_spec { f with OutputType := "db" } world ho (stringsSplit f.Platforms) 0
  have h5 : (knownPrefix (stringsSplit f.Platforms)).map
        (fun p => (callFor { f with OutputType := "db" } p).map Prod.snd) =
      ((knownPrefix (stringsSplit f.Platforms)).map
        (fun p => writer.Writer.NewDatabaseWriter (if p = "pypi_slow" then "pypi" else p))).map
        some := by
    rw [List.map_map]
    apply List.map_congr_left
    intro p hp
    exact callFor_db f p (mem_knownPrefix _ p hp)
  have h6 : (writersBuilt (main { f with OutputType := "db" } world).1).map some =
      ((knownPrefix (stringsSplit f.Platforms)).map
        (fun p => writer.Writer.NewDatabaseWriter (if p = "pypi_slow" then "pypi" else p))).map
        some := by
    rw [← h5]
    exact h3
  exact List.map_injective_iff.2 (Option.some_injective _) h6

/-! ## `dateFlag` -/

namespace time

theorem digitChar_digitVal (c : Char) (h : isDigitChar c = true) : digitChar (digitVal c) = c := by
  unfold isDigitChar at h
  unfold digitChar digitVal
  simp only [Bool.and_eq_true, decide_eq_true_eq] at h
  have : 48 + (c.toNat - 48) = c.toNat := by omega
  rw [this]
  exact Char.ofNat_toNat c

theorem digitVal_le (c : Char) (h : isDigitChar c = true) : digitVal c ≤ 9 := by
  unfold isDigitChar at h
  unfold digitVal
  simp only [Bool.and_eq_true, decide_eq_true_eq] at h
  omega

theorem appendInt_four (a b c d : Nat) (ha : a ≤ 9) (hb : b ≤ 9) (hc : c ≤ 9) (hd : d ≤ 9) :
    appendInt ((a * 1000 + b * 100 + c * 10 + d : Nat) : Int) 4 =
      [digitChar a, digitChar b, digitChar c, digitChar d] := by
  unfold appendInt
  have h1 : ¬ (((a * 1000 + b * 100 + c * 10 + d : Nat) : Int) < 0) := by omega
  have h2 : (((a * 1000 + b * 100 + c * 10 + d : Nat) : Int)).natAbs =
      a * 1000 + b * 100 + c * 10 + d := Int.natAbs_ofNat _
  simp only [h2, h1, if_false]
  have e1 : (a * 1000 + b * 100 + c * 10 + d) / 1000 = a := by omega
  have e2 : (a * 1000 + b * 100 + c * 10 + d) / 100 % 10 = b := by omega
  have e3 : (a * 1000 + b * 100 + c * 10 + d) / 10 % 10 = c := by omega
  have e4 : (a * 1000 + b * 100 + c * 10 + d) % 10 = d := by omega
  have e5 : a * 1000 + b * 100 + c * 10 + d < 10000 := by omega
  simp [e1, e2, e3, e4, e5]

theorem appendInt_two (a b : Nat) (ha : a ≤ 9) (hb : b ≤ 9) :
    appendInt ((a * 10 + b : Nat) : Int) 2 = [digitChar a, digitChar b] := by
  unfold appendInt
  have h1 : ¬ (((a * 10 + b : Nat) : Int) < 0) := by omega
  have h2 : (((a * 10 + b : Nat) : Int)).natAbs = a * 10 + b := Int.natAbs_ofNat _
  simp only [h2, h1, if_false]
  have e1 : (a * 10 + b) / 10 = a := by omega
  have e2 : (a * 10 + b) % 10 = b := by omega
  have e5 : a * 10 + b < 100 := by omega
  simp [e1, e2, e5]

theorem getyear_some (l r : List Char) (y : Int) (h : getyear l = some (y, r)) :
    ∃ c0 c1 c2 c3, l = c0 :: c1 :: c2 :: c3 :: r ∧
      isDigitChar c0 = true ∧ isDigitChar c1 = true ∧ isDigitChar c2 = true ∧
      isDigitChar c3 = true ∧
      y = ((digitVal c0 * 1000 + digitVal c1 * 100 + digitVal c2 * 10 + digitVal c3 : Nat) : Int) := by
  match l, h with
  | c0 :: c1 :: c2 :: c3 :: rest, h =>
    simp only [getyear] at h
    split at h
    · rename_i hd
      simp only [Bool.and_eq_true] at hd
      simp only [Option.some.injEq, Prod.mk.injEq] at h
      exact ⟨c0, c1, c2, c3, by rw [h.2], hd.1.1.1, hd.1.1.2, hd.1.2, hd.2, h.1.symm⟩
    · simp at h
  | [], h => simp [getyear] at h
  | [_], h => simp [getyear] at h
  | [_, _], h => simp [getyear] at h
  | [_, _, _], h => simp [getyear] at h

theorem getnum_fixed_some (l r : List Char) (n : Nat) (h : getnum l true = some (n, r)) :
    ∃ c0 c1, l = c0 :: c1 :: r ∧ isDigitChar c0 = true ∧ isDigitChar c1 = true ∧
      n = digitVal c0 * 10 + digitVal c1 := by
  match l, h with
  | [], h => simp [getnum] at h
  | [c0], h =>
    simp only [getnum] at h
    split at h <;> simp at h
  | c0 :: c1 :: rest, h =>
    simp only [getnum] at h
    split at h
    · rename_i h0
      split at h
      · rename_i h1
        simp only [Option.some.injEq, Prod.mk.injEq] at h
        exact ⟨c0, c1, by rw [h.2], h0, h1, h.1.symm⟩
      · simp at h
    · simp at h

theorem skipDash_some (l r : List Char) (h : skipDash l = some r) : l = '-' :: r := by
  match l, h with
  | [], h => simp [skipDash] at h
  | c :: rest, h =>
    simp only [skipDash] at h
    split at h
    · rename_i hc
      simp only [Option.some.injEq] at h
      rw [hc, h]
    · simp at h

theorem format_parseDateChars (l : List Char) (t : Time) (h : parseDateChars l = some t) :
    appendInt t.Year 4 ++ ['-'] ++ appendInt t.Month 2 ++ ['-'] ++ appendInt t.Day 2 = l := by
  unfold parseDateChars at h
  split at h
  · simp at h
  · rename_i year s1 hy
    split at h
    · simp at h
    · rename_i s2 hs1
      split at h
      · simp at h
      · rename_i month s3 hm
        split at h
        · simp at h
        · split at h
          · simp at h
          · rename_i s4 hs3
            split at h
            · simp at h
            · rename_i day s5 hd
              split at h
              · simp at h
              · rename_i hs5
                split at h
                · simp at h
                · simp only [Option.some.injEq] at h
                  obtain ⟨c0, c1, c2, c3, hl, d0, d1, d2, d3, hyear⟩ := getyear_some _ _ _ hy
                  obtain ⟨m0, m1, hl2, dm0, dm1, hmonth⟩ := getnum_fixed_some _ _ _ hm
                  obtain ⟨e0, e1, hl4, de0, de1, hday⟩ := getnum_fixed_some _ _ _ hd
                  have hl1 := skipDash_some _ _ hs1
                  have hl3 := skipDash_some _ _ hs3
                  have hs5nil : s5 = [] := by simpa using hs5
                  subst h
                  simp only
                  rw [hyear, hmonth, hday,
                    appendInt_four _ _ _ _ (digitVal_le _ d0) (digitVal_le _ d1)
                      (digitVal_le _ d2) (digitVal_le _ d3),
                    appendInt_two _ _ (digitVal_le _ dm0) (digitVal_le _ dm1),
                    appendInt_two _ _ (digitVal_le _ de0) (digitVal_le _ de1),
                    digitChar_digitVal _ d0, digitChar_digitVal _ d1, digitChar_digitVal _ d2,
                    digitChar_digitVal _ d3, digitChar_digitVal _ dm0, digitChar_digitVal _ dm1,
                    digitChar_digitVal _ de0, digitChar_digitVal _ de1,
                    hl, hl1, hl2, hl3, hl4, hs5nil]
                  simp

theorem FormatDate_ParseDate (s : String) (t : Time) (h : ParseDate s = Except.ok t) :
    FormatDate t = s := by
  unfold ParseDate at h
  split at h
  · rename_i t2 hp
    simp only [Except.ok.injEq] at h
    subst h
    unfold FormatDate
    rw [format_parseDateChars _ _ hp]
  · simp at h

end time

/-- C10: when `Set` accepts a string (returns `nil`), `String` called on the flag
afterwards returns exactly that string; when `Set` rejects a string, the error
it returns is the one `time.Parse` gave and the flag keeps its previous value. -/
theorem C10_dateFlag_round_trip (d : dateFlag) (s : String) :
    ((d.Set s).2 = none → (d.Set s).1.String = s) ∧
    (∀ err, (d.Set s).2 = some err → time.ParseDate s = Except.error err ∧ (d.Set s).1 = d) := by
  unfold dateFlag.Set
  cases hp : time.ParseDate s with
  | error e =>
    refine ⟨by simp, ?_⟩
    intro err herr
    simp only [Option.some.injEq] at herr
    subst herr
    exact ⟨rfl, rfl⟩
  | ok t =>
    refine ⟨?_, by simp⟩
    intro _
    simp only [dateFlag.String]
    exact time.FormatDate_ParseDate s t hp

/-- `Set` accepts the leap day of 2024, and `String` gives it back. -/
theorem dateFlag_accepts_leap_day :
    (dateFlag.Set ⟨⟨2008, 1, 1, 0, 0, 0, 0⟩⟩ "2024-02-29").2 = none ∧
    (dateFlag.Set ⟨⟨2008, 1, 1, 0, 0, 0, 0⟩⟩ "2024-02-29").1.String = "2024-02-29" := by
  decide

/-- `Set` rejects a day that does not exist and a month written with one digit,
with the error of `time.Parse`, and leaves the flag as it was. -/
theorem dateFlag_rejects_bad_dates :
    dateFlag.Set ⟨⟨2008, 1, 1, 0, 0, 0, 0⟩⟩ "2023-02-29" =
      (⟨⟨2008, 1, 1, 0, 0, 0, 0⟩⟩,
        some ⟨"parsing time \"2023-02-29\": day out of range"⟩) ∧
    dateFlag.Set ⟨⟨2008, 1, 1, 0, 0, 0, 0⟩⟩ "2023-2-09" =
      (⟨⟨2008, 1, 1, 0, 0, 0, 0⟩⟩,
        some ⟨"parsing time \"2023-2-09\" as \"2006-01-02\": cannot parse \"2-09\" as \"01\""⟩) := by
  decide

/-! ## `PackageInfo` -/

namespace collector

/-- C2: `CalculateImpact` is idempotent: a second call with the same count leaves
every field of the package, `Impact` and `DependsCount` included, as the first
call left it. -/
theorem C2_calculateImpact_idempotent (pkg : PackageInfo) (count : Int) :
    (pkg.CalculateImpact count).CalculateImpact count = pkg.CalculateImpact count ∧
    (pkg.CalculateImpact count).DependsCount = pkg.DependsCount := by
  exact ⟨rfl, rfl⟩

/-- C3 (the code at the failing input): when the lookup returns an error and no
record, `GetGitlinkByPkg` logs the error and then panics with a nil-pointer
dereference at `pkgInfo.GitLink`, instead of returning. -/
theorem C3_lookup_miss_panics (pkg : PackageInfo) (ac : storage.AppDatabaseContext)
    (err : GoError)
    (hmiss : ac.distPackageByName pkg.DistPackageTablePrefix pkg.Name = (none, some err)) :
    pkg.GetGitlinkByPkg ac =
      Result.panicked nilDereference
        [⟨"Error getting package info from database:", some err⟩] := by
  simp [PackageInfo.GetGitlinkByPkg, repository.NewDistPackageRepository,
    repository.DistPackageRepository.GetByName, hmiss]

/-- C3, at a package with an empty `Gitlink` and a database with no record. -/
theorem C3_lookup_miss_panics_witness :
    samplePackage.Gitlink = "" ∧
    samplePackage.GetGitlinkByPkg emptyDatabase =
      Result.panicked nilDereference
        [⟨"Error getting package info from database:",
          some ⟨"sql: no rows in result set"⟩⟩] :=
  ⟨rfl, C3_lookup_miss_panics samplePackage emptyDatabase ⟨"sql: no rows in result set"⟩ rfl⟩

/-- C7: `GetGitlinkByPkg` depends on the database only through the lookup of
`pkg.Name` under `pkg.DistPackageTablePrefix`, and when that lookup yields a
record whose `GitLink` is set, the call returns with `Gitlink` equal to that
value and every other field of the package unchanged. -/
theorem C7_gitlink_from_record (pkg : PackageInfo) (ac : storage.AppDatabaseContext)
    (info : repository.DistPackage) (err : Option GoError) (link : String)
    (hfound : ac.distPackageByName pkg.DistPackageTablePrefix pkg.Name = (some info, err))
    (hlink : info.GitLink = some link) :
    (∃ log, pkg.GetGitlinkByPkg ac = Result.returned { pkg with Gitlink := link } log) ∧
    (∀ ac2 : storage.AppDatabaseContext,
      ac2.distPackageByName pkg.DistPackageTablePrefix pkg.Name =
        ac.distPackageByName pkg.DistPackageTablePrefix pkg.Name →
      pkg.GetGitlinkByPkg ac2 = pkg.GetGitlinkByPkg ac) := by
  constructor
  · refine ⟨if err ≠ none then [⟨"Error getting package info from database:", err⟩] else [], ?_⟩
    simp [PackageInfo.GetGitlinkByPkg, repository.NewDistPackageRepository,
      repository.DistPackageRepository.GetByName, hfound, hlink]
  · intro ac2 h
    simp only [PackageInfo.GetGitlinkByPkg, repository.NewDistPackageRepository,
      repository.DistPackageRepository.GetByName, h]

/-- C7, at the package `zlib` of the Debian tables. -/
theorem C7_gitlink_from_record_witness :
    (∃ log, samplePackage.GetGitlinkByPkg zlibDatabase =
      Result.returned { samplePackage with Gitlink := "https://github.com/madler/zlib" } log) ∧
    (∀ ac2 : storage.AppDatabaseContext,
      ac2.distPackageByName samplePackage.DistPackageTablePrefix samplePackage.Name =
        zlibDatabase.distPackageByName samplePackage.DistPackageTablePrefix samplePackage.Name →
      samplePackage.GetGitlinkByPkg ac2 = samplePackage.GetGitlinkByPkg zlibDatabase) :=
  C7_gitlink_from_record samplePackage zlibDatabase
    { Package := some "zlib", Description := none, HomePage := none, Version := none,
      DependsCount := none, GitLink := some "https://github.com/madler/zlib" }
    none "https://github.com/madler/zlib" rfl rfl

end collector

/-! ## The bisection scheduler -/

namespace scheduler

theorem contains_iff (r : EnumerationRange) (x : Record) :
    r.contains x = true ↔
      r.StartDate ≤ x.CreatedAt ∧ x.CreatedAt ≤ r.EndDate ∧ r.MinStars ≤ x.Stars ∧
        ∀ m, r.MaxStars = some m → x.Stars ≤ m := by
  unfold EnumerationRange.contains
  cases hm : r.MaxStars with
  | none => simp [and_assoc]
  | some m => simp [and_assoc]

/-- The cell hypothesis of the amended claim is needed: a record whose day and
star count are shared by the cap or more records is never emitted, from
whatever range the scheduler starts. -/
theorem schedule_misses_dense_cell (cfg : Config) (marginDrops : Nat → Bool) (cap : Nat)
    (catalog : List Record) (x : Record)
    (hdense : cap ≤ cellCount catalog x.CreatedAt x.Stars) :
    ∀ (fuel : Nat) (r : EnumerationRange),
      x ∉ (schedule cfg marginDrops cap catalog fuel r).records := by
  intro fuel
  induction fuel with
  | zero => intro r; simp [schedule]
  | succ fuel ih =>
    intro r
    simp only [schedule]
    split
    · simp
    · split
      · rename_i h1
        intro hx
        simp only [query] at hx
        have hc := (List.mem_filter.1 (List.mem_of_mem_take hx)).2
        obtain ⟨c1, c2, c3, c4⟩ := (contains_iff r x).1 hc
        have hle : cellCount catalog x.CreatedAt x.Stars ≤ probe catalog r := by
          unfold probe cellCount
          rw [← List.countP_eq_length_filter, ← List.countP_eq_length_filter]
          apply List.countP_mono_left
          intro y _ hy
          simp only [Bool.and_eq_true, decide_eq_true_eq] at hy
          apply (contains_iff r y).2
          rw [hy.1, hy.2]
          exact ⟨c1, c2, c3, c4⟩
        omega
      · split
        · intro hx
          rcases List.mem_append.1 hx with h | h
          · exact ih _ h
          · exact ih _ h
        · generalize starSplit cfg marginDrops r (maxStars catalog r) = buckets
          induction buckets with
          | nil => simp
          | cons b bs ihb =>
            rw [List.foldr_cons]
            intro hx
            rcases List.mem_append.1 hx with h | h
            · exact ih _ h
            · exact ihb h

end scheduler

/-! ## `float64` conversion and division -/

namespace Float64

theorem log2Aux_spec : ∀ (fuel n : Nat), 0 < n → n ≤ fuel →
    2 ^ log2Aux fuel n ≤ n ∧ n < 2 ^ (log2Aux fuel n + 1) := by
  intro fuel
  induction fuel with
  | zero => intro n h1 h2; omega
  | succ fuel ih =>
    intro n h1 h2
    simp only [log2Aux]
    split
    · rename_i h
      have : n = 1 := by omega
      subst this
      simp
    · rename_i h
      obtain ⟨ha, hb⟩ := ih (n / 2) (by omega) (by omega)
      rw [pow_succ, pow_succ]
      constructor <;> omega

theorem ilog2_spec (n : Nat) (h : 0 < n) : 2 ^ ilog2 n ≤ n ∧ n < 2 ^ (ilog2 n + 1) :=
  log2Aux_spec n n h (Nat.le_refl n)

theorem ilog2_lt_of_lt_pow (n k : Nat) (h : 0 < n) (hk : n < 2 ^ k) : ilog2 n < k := by
  have h1 := (ilog2_spec n h).1
  have h2 : 2 ^ ilog2 n < 2 ^ k := Nat.lt_of_le_of_lt h1 hk
  exact (Nat.pow_lt_pow_iff_right (by norm_num)).1 h2

theorem le_ilog2_of_pow_le (n k : Nat) (h : 0 < n) (hk : 2 ^ k ≤ n) : k ≤ ilog2 n := by
  have h1 := (ilog2_spec n h).2
  have h2 : 2 ^ k < 2 ^ (ilog2 n + 1) := Nat.lt_of_le_of_lt hk h1
  have := (Nat.pow_lt_pow_iff_right (by norm_num)).1 h2
  omega

theorem scale_snd_pos (num den : Nat) (e : Int) (hden : 0 < den) : 0 < (scale num den e).2 := by
  unfold scale
  split
  · exact Nat.mul_pos hden (pow_pos (by norm_num) _)
  · exact hden

theorem scale_ratio (num den : Nat) (e : Int) (hden : 0 < den) :
    ((scale num den e).1 : ℚ) / ((scale num den e).2 : ℚ) = (num : ℚ) / (den : ℚ) / (2 : ℚ) ^ e := by
  have hd : (den : ℚ) ≠ 0 := by exact_mod_cast (Nat.pos_iff_ne_zero.1 hden)
  unfold scale
  split
  · rename_i h
    obtain ⟨k, rfl⟩ := Int.eq_ofNat_of_zero_le h
    simp only [Int.toNat_ofNat, Nat.cast_mul, Nat.cast_pow, Nat.cast_ofNat, zpow_natCast]
    field_simp
  · rename_i h
    obtain ⟨k, hk⟩ := Int.eq_ofNat_of_zero_le (show 0 ≤ -e by omega)
    have he : e = -(k : Int) := by omega
    subst he
    simp only [neg_neg, Int.toNat_ofNat, Nat.cast_mul, Nat.cast_pow, Nat.cast_ofNat, zpow_neg,
      zpow_natCast]
    field_simp

theorem divRoundEven_bounds (n d : Nat) : n / d ≤ divRoundEven n d ∧ divRoundEven n d ≤ n / d + 1 := by
  unfold divRoundEven
  simp only
  split
  · omega
  · split
    · omega
    · split <;> omega

theorem divRoundEven_err (n d : Nat) (hd : 0 < d) :
    |(divRoundEven n d : ℚ) - (n : ℚ) / (d : ℚ)| ≤ 1 / 2 := by
  have hdq : (0 : ℚ) < d := by exact_mod_cast hd
  have hn : (n : ℚ) = (d : ℚ) * ((n / d : Nat) : ℚ) + ((n % d : Nat) : ℚ) := by
    exact_mod_cast (Nat.div_add_mod n d).symm
  have hr : (n : ℚ) / d = ((n / d : Nat) : ℚ) + ((n % d : Nat) : ℚ) / d := by
    rw [hn]; field_simp; ring
  have hrlt : ((n % d : Nat) : ℚ) < d := by exact_mod_cast Nat.mod_lt n hd
  have hr0 : (0 : ℚ) ≤ ((n % d : Nat) : ℚ) := by positivity
  rw [hr]
  unfold divRoundEven
  simp only
  rw [abs_le]
  split
  · rename_i h
    have h' : (2 : ℚ) * ((n % d : Nat) : ℚ) < d := by exact_mod_cast h
    have : ((n % d : Nat) : ℚ) / d < 1 / 2 := by
      rw [div_lt_iff₀ hdq]; linarith
    have : (0 : ℚ) ≤ ((n % d : Nat) : ℚ) / d := by positivity
    constructor <;> linarith
  · rename_i h
    have h' : (d : ℚ) ≤ (2 : ℚ) * ((n % d : Nat) : ℚ) := by exact_mod_cast (Nat.le_of_not_lt h)
    have hge : (1 : ℚ) / 2 ≤ ((n % d : Nat) : ℚ) / d := by
      rw [le_div_iff₀ hdq]; linarith
    have hlt : ((n % d : Nat) : ℚ) / d < 1 := by
      rw [div_lt_iff₀ hdq]; linarith
    split
    · push_cast
      constructor <;> linarith
    · rename_i h2
      have h2' : (2 : ℚ) * ((n % d : Nat) : ℚ) ≤ d := by exact_mod_cast (Nat.le_of_not_lt h2)
      have hle : ((n % d : Nat) : ℚ) / d ≤ 1 / 2 := by
        rw [div_le_iff₀ hdq]; linarith
      split
      · constructor <;> linarith
      · push_cast
        constructor <;> linarith

theorem ratio_bounds (num den : Nat) (hnum : 0 < num) (hden : 0 < den) :
    (2 : ℚ) ^ ((ilog2 num : Int) - (ilog2 den : Int) - 1) < (num : ℚ) / (den : ℚ) ∧
    (num : ℚ) / (den : ℚ) < (2 : ℚ) ^ ((ilog2 num : Int) - (ilog2 den : Int) + 1) := by
  obtain ⟨ha1, ha2⟩ := ilog2_spec num hnum
  obtain ⟨hb1, hb2⟩ := ilog2_spec den hden
  have hdq : (0 : ℚ) < den := by exact_mod_cast hden
  have ha1q : (2 : ℚ) ^ (ilog2 num) ≤ num := by exact_mod_cast ha1
  have ha2q : (num : ℚ) < (2 : ℚ) ^ (ilog2 num + 1) := by exact_mod_cast ha2
  have hb1q : (2 : ℚ) ^ (ilog2 den) ≤ den := by exact_mod_cast hb1
  have hb2q : (den : ℚ) < (2 : ℚ) ^ (ilog2 den + 1) := by exact_mod_cast hb2
  have h2 : (2 : ℚ) ≠ 0 := by norm_num
  have hpa : (0 : ℚ) < (2 : ℚ) ^ (ilog2 num) := by positivity
  have hpb : (0 : ℚ) < (2 : ℚ) ^ (ilog2 den) := by positivity
  constructor
  · rw [lt_div_iff₀ hdq]
    have e1 : (2 : ℚ) ^ ((ilog2 num : Int) - (ilog2 den : Int) - 1) =
        (2 : ℚ) ^ (ilog2 num) / (2 : ℚ) ^ (ilog2 den + 1) := by
      rw [show ((ilog2 num : Int) - (ilog2 den : Int) - 1) =
        (ilog2 num : Int) - ((ilog2 den + 1 : Nat) : Int) by push_cast; ring]
      rw [zpow_sub₀ h2, zpow_natCast, zpow_natCast]
    rw [e1, div_mul_eq_mul_div, div_lt_iff₀ (by positivity)]
    calc (2 : ℚ) ^ ilog2 num * den < (2 : ℚ) ^ ilog2 num * (2 : ℚ) ^ (ilog2 den + 1) := by
          exact mul_lt_mul_of_pos_left hb2q hpa
      _ ≤ num * (2 : ℚ) ^ (ilog2 den + 1) := by
          exact mul_le_mul_of_nonneg_right ha1q (by positivity)
  · rw [div_lt_iff₀ hdq]
    have e1 : (2 : ℚ) ^ ((ilog2 num : Int) - (ilog2 den : Int) + 1) =
        (2 : ℚ) ^ (ilog2 num + 1) / (2 : ℚ) ^ (ilog2 den) := by
      rw [show ((ilog2 num : Int) - (ilog2 den : Int) + 1) =
        ((ilog2 num + 1 : Nat) : Int) - ((ilog2 den : Nat) : Int) by push_cast; ring]
      rw [zpow_sub₀ h2, zpow_natCast, zpow_natCast]
    rw [e1, div_mul_eq_mul_div, lt_div_iff₀ hpb]
    calc (num : ℚ) * (2 : ℚ) ^ ilog2 den < (2 : ℚ) ^ (ilog2 num + 1) * (2 : ℚ) ^ ilog2 den := by
          exact mul_lt_mul_of_pos_right ha2q hpb
      _ ≤ (2 : ℚ) ^ (ilog2 num + 1) * den := by
          exact mul_le_mul_of_nonneg_left hb1q (by positivity)

theorem scale_floor (num den : Nat) (e : Int) (hden : 0 < den) :
    (scale num den e).1 / (scale num den e).2 = ⌊(num : ℚ) / (den : ℚ) / (2 : ℚ) ^ e⌋₊ := by
  rw [← scale_ratio num den e hden, Nat.floor_div_eq_div]

theorem normExp_spec (num den : Nat) (hnum : 0 < num) (hden : 0 < den) :
    (2 : ℚ) ^ 52 ≤ (num : ℚ) / (den : ℚ) / (2 : ℚ) ^ (normExp num den) ∧
    (num : ℚ) / (den : ℚ) / (2 : ℚ) ^ (normExp num den) < (2 : ℚ) ^ 53 ∧
    (ilog2 num : Int) - (ilog2 den : Int) - 53 ≤ normExp num den ∧
    normExp num den ≤ (ilog2 num : Int) - (ilog2 den : Int) - 52 := by
  obtain ⟨hlo, hhi⟩ := ratio_bounds num den hnum hden
  have h2 : (2 : ℚ) ≠ 0 := by norm_num
  set x : ℚ := (num : ℚ) / (den : ℚ) with hx
  set c : Int := (ilog2 num : Int) - (ilog2 den : Int) with hc
  have hpos : (0 : ℚ) < (2 : ℚ) ^ (c - 52) := by positivity
  have elo : (2 : ℚ) ^ (c - 1) = (2 : ℚ) ^ 51 * (2 : ℚ) ^ (c - 52) := by
    rw [show c - 1 = 51 + (c - 52) by ring, zpow_add₀ h2]; norm_num
  have ehi : (2 : ℚ) ^ (c + 1) = (2 : ℚ) ^ 53 * (2 : ℚ) ^ (c - 52) := by
    rw [show c + 1 = 53 + (c - 52) by ring, zpow_add₀ h2]; norm_num
  have t0lo : (2 : ℚ) ^ 51 < x / (2 : ℚ) ^ (c - 52) := by
    rw [lt_div_iff₀ hpos, ← elo]; exact hlo
  have t0hi : x / (2 : ℚ) ^ (c - 52) < (2 : ℚ) ^ 53 := by
    rw [div_lt_iff₀ hpos, ← ehi]; exact hhi
  unfold normExp
  simp only
  rw [scale_floor num den _ hden]
  split
  · rename_i hq
    have hq' : x / (2 : ℚ) ^ (c - 52) < ((2 ^ 52 : Nat) : ℚ) :=
      (Nat.floor_lt (by positivity)).1 hq
    have e1 : (2 : ℚ) ^ (c - 52 - 1) = (2 : ℚ) ^ (c - 52) / 2 := by
      rw [zpow_sub₀ h2]; norm_num
    rw [e1]
    have e2 : x / ((2 : ℚ) ^ (c - 52) / 2) = 2 * (x / (2 : ℚ) ^ (c - 52)) := by
      field_simp
      ring
    rw [e2]
    push_cast at hq'
    refine ⟨?_, ?_, ?_, ?_⟩
    · linarith
    · linarith
    · omega
    · omega
  · rename_i hq
    have hq' : ((2 ^ 52 : Nat) : ℚ) ≤ x / (2 : ℚ) ^ (c - 52) := by
      by_contra hcon
      exact hq ((Nat.floor_lt (by positivity)).2 (lt_of_not_le hcon))
    push_cast at hq'
    refine ⟨hq', t0hi, ?_, ?_⟩ <;> omega

theorem round_normal (neg : Bool) (num den : Nat) (hnum : 0 < num) (hden : 0 < den)
    (hlo : -1074 ≤ normExp num den) (hhi : normExp num den ≤ 970) :
    ∃ (m : Nat) (e : Int) (m0 : Nat), round neg num den = .fin neg m e ∧
      2 ^ 52 ≤ m ∧ m < 2 ^ 53 ∧ normExp num den ≤ e ∧ e ≤ normExp num den + 1 ∧
      (m : ℚ) * (2 : ℚ) ^ e = (m0 : ℚ) * (2 : ℚ) ^ (normExp num den) ∧
      |(m0 : ℚ) - (num : ℚ) / (den : ℚ) / (2 : ℚ) ^ (normExp num den)| ≤ 1 / 2 := by
  obtain ⟨ht1, ht2, _, _⟩ := normExp_spec num den hnum hden
  have hmax : max (normExp num den) (-1074) = normExp num den := max_eq_left hlo
  have hs2 := scale_snd_pos num den (normExp num den) hden
  have hfl := scale_floor num den (normExp num den) hden
  have herr := divRoundEven_err (scale num den (normExp num den)).1
    (scale num den (normExp num den)).2 hs2
  rw [scale_ratio num den _ hden] at herr
  obtain ⟨hb1, hb2⟩ := divRoundEven_bounds (scale num den (normExp num den)).1
    (scale num den (normExp num den)).2
  rw [hfl] at hb1 hb2
  have hq1 : 2 ^ 52 ≤ ⌊(num : ℚ) / (den : ℚ) / (2 : ℚ) ^ (normExp num den)⌋₊ := by
    apply Nat.le_floor
    push_cast
    exact ht1
  have hq2 : ⌊(num : ℚ) / (den : ℚ) / (2 : ℚ) ^ (normExp num den)⌋₊ < 2 ^ 53 := by
    apply (Nat.floor_lt (by positivity)).2
    push_cast
    exact ht2
  have hne : num ≠ 0 := Nat.pos_iff_ne_zero.1 hnum
  unfold round
  simp only [hne, if_false, hmax]
  split
  · rename_i hm
    have h971 : ¬ (971 < normExp num den + 1) := by omega
    simp only [h971, if_false]
    refine ⟨2 ^ 52, normExp num den + 1, 2 ^ 53, rfl, Nat.le_refl _, by norm_num, by omega,
      by omega, ?_, ?_⟩
    · rw [zpow_add₀ (by norm_num : (2 : ℚ) ≠ 0)]
      push_cast
      ring
    · rw [← hm]
      exact herr
  · rename_i hm
    have h971 : ¬ (971 < normExp num den) := by omega
    simp only [h971, if_false]
    refine ⟨_, normExp num den, _, rfl, by omega, by omega, Int.le_refl _, by omega, rfl, herr⟩

theorem round_normal_err (neg : Bool) (num den : Nat) (hnum : 0 < num) (hden : 0 < den)
    (hlo : -1074 ≤ normExp num den) (hhi : normExp num den ≤ 970) :
    ∃ (m : Nat) (e : Int), round neg num den = .fin neg m e ∧
      2 ^ 52 ≤ m ∧ m < 2 ^ 53 ∧ normExp num den ≤ e ∧ e ≤ normExp num den + 1 ∧
      |(m : ℚ) * (2 : ℚ) ^ e - (num : ℚ) / (den : ℚ)| ≤ (num : ℚ) / (den : ℚ) / 2 ^ 53 := by
  obtain ⟨m, e, m0, h1, h2, h3, h4, h5, h6, h7⟩ :=
    round_normal neg num den hnum hden hlo hhi
  obtain ⟨ht1, _, _, _⟩ := normExp_spec num den hnum hden
  refine ⟨m, e, h1, h2, h3, h4, h5, ?_⟩
  have hp : (0 : ℚ) < (2 : ℚ) ^ (normExp num den) := by positivity
  set x : ℚ := (num : ℚ) / (den : ℚ) with hx
  set p : ℚ := (2 : ℚ) ^ (normExp num den) with hpdef
  have hxe : x = (x / p) * p := by field_simp
  rw [h6]
  have e1 : (m0 : ℚ) * p - x = ((m0 : ℚ) - x / p) * p := by
    field_simp
  rw [e1, abs_mul, abs_of_pos hp]
  have hb : |(m0 : ℚ) - x / p| * p ≤ 1 / 2 * p := mul_le_mul_of_nonneg_right h7 hp.le
  have hx52 : (2 : ℚ) ^ 52 * p ≤ x := by
    rw [← le_div_iff₀ hp]; exact ht1
  have : 1 / 2 * p ≤ x / 2 ^ 53 := by
    rw [le_div_iff₀ (by positivity)]
    have e2 : 1 / 2 * p * (2 : ℚ) ^ 53 = (2 : ℚ) ^ 52 * p := by ring
    rw [e2]; exact hx52
  linarith

theorem ilog2_one : ilog2 1 = 0 := by decide

theorem normExp_den_one (num : Nat) (hnum : 0 < num) :
    (ilog2 num : Int) - 53 ≤ normExp num 1 ∧ normExp num 1 ≤ (ilog2 num : Int) - 52 := by
  obtain ⟨_, _, h3, h4⟩ := normExp_spec num 1 hnum (by norm_num)
  rw [ilog2_one] at h3 h4
  push_cast at h3 h4
  constructor <;> omega

theorem round_nat_bounds (neg : Bool) (a : Nat) (ha : 0 < a) (hbig : a < 2 ^ 64) :
    ∃ (m : Nat) (e : Int), round neg a 1 = .fin neg m e ∧
      2 ^ 52 ≤ m ∧ m < 2 ^ 53 ∧ -53 ≤ e ∧ e ≤ 13 := by
  obtain ⟨h1, h2⟩ := normExp_den_one a ha
  have hl : ilog2 a < 64 := ilog2_lt_of_lt_pow _ _ ha hbig
  obtain ⟨m, e, _, hr, hm1, hm2, he1, he2, _, _⟩ :=
    round_normal neg a 1 ha (by norm_num) (by omega) (by omega)
  exact ⟨m, e, hr, hm1, hm2, by omega, by omega⟩

theorem round_nat_exact (neg : Bool) (a : Nat) (ha : 0 < a) (hsmall : a < 2 ^ 53) :
    ∃ (m : Nat) (e : Int), round neg a 1 = .fin neg m e ∧
      2 ^ 52 ≤ m ∧ m < 2 ^ 53 ∧ -53 ≤ e ∧ e ≤ 13 ∧
      (m : ℚ) * (2 : ℚ) ^ e = (a : ℚ) := by
  obtain ⟨h1, h2⟩ := normExp_den_one a ha
  have hl : ilog2 a < 53 := ilog2_lt_of_lt_pow _ _ ha hsmall
  obtain ⟨m, e, m0, hr, hm1, hm2, he1, he2, hval, herr⟩ :=
    round_normal neg a 1 ha (by norm_num) (by omega) (by omega)
  refine ⟨m, e, hr, hm1, hm2, by omega, by omega, ?_⟩
  obtain ⟨k, hk⟩ := Int.eq_ofNat_of_zero_le (show 0 ≤ -(normExp a 1) by omega)
  have hE : normExp a 1 = -(k : Int) := by omega
  rw [hval]
  rw [hE] at herr ⊢
  have hpk : (0 : ℚ) < (2 : ℚ) ^ k := by positivity
  have ex : (a : ℚ) / ((1 : Nat) : ℚ) / (2 : ℚ) ^ (-(k : Int)) = ((a * 2 ^ k : Nat) : ℚ) := by
    rw [zpow_neg, zpow_natCast]
    push_cast
    field_simp
  rw [ex] at herr
  have hint : |(((m0 : Int) - ((a * 2 ^ k : Nat) : Int) : Int) : ℚ)| < 1 := by
    push_cast
    push_cast at herr
    linarith
  have hint2 : |(m0 : Int) - ((a * 2 ^ k : Nat) : Int)| < 1 := by
    rw [← Int.cast_abs] at hint
    exact_mod_cast hint
  have hm0 : m0 = a * 2 ^ k := by
    have := Int.abs_lt_one_iff.1 hint2
    omega
  rw [hm0, zpow_neg, zpow_natCast]
  push_cast
  field_simp

theorem div_fin_err (s t : Bool) (m n : Nat) (e f : Int)
    (hm1 : 2 ^ 52 ≤ m) (hm2 : m < 2 ^ 53) (hn1 : 2 ^ 52 ≤ n) (hn2 : n < 2 ^ 53)
    (he1 : -53 ≤ e) (he2 : e ≤ 13) (hf1 : -53 ≤ f) (hf2 : f ≤ 13) :
    ∃ (m2 : Nat) (e2 : Int), div (.fin s m e) (.fin t n f) = .fin (xor s t) m2 e2 ∧
      |(m2 : ℚ) * (2 : ℚ) ^ e2 - ((m : ℚ) * (2 : ℚ) ^ e) / ((n : ℚ) * (2 : ℚ) ^ f)| ≤
        ((m : ℚ) * (2 : ℚ) ^ e) / ((n : ℚ) * (2 : ℚ) ^ f) / 2 ^ 53 := by
  have hn0 : n ≠ 0 := by
    have : 0 < 2 ^ 52 := by norm_num
    omega
  obtain ⟨i, hi⟩ := Int.eq_ofNat_of_zero_le (show 0 ≤ e - min e f by omega)
  obtain ⟨j, hj⟩ := Int.eq_ofNat_of_zero_le (show 0 ≤ f - min e f by omega)
  have hi66 : i ≤ 66 := by omega
  have hj66 : j ≤ 66 := by omega
  have hnum : 0 < m * 2 ^ i := Nat.mul_pos (by omega) (pow_pos (by norm_num) _)
  have hden : 0 < n * 2 ^ j := Nat.mul_pos (by omega) (pow_pos (by norm_num) _)
  have hpi : 2 ^ i ≤ 2 ^ 66 := Nat.pow_le_pow_right (by norm_num) hi66
  have hpj : 2 ^ j ≤ 2 ^ 66 := Nat.pow_le_pow_right (by norm_num) hj66
  have hpi1 : 1 ≤ 2 ^ i := Nat.one_le_two_pow
  have hpj1 : 1 ≤ 2 ^ j := Nat.one_le_two_pow
  have hnumlo : 2 ^ 52 ≤ m * 2 ^ i := by nlinarith
  have hnumhi : m * 2 ^ i < 2 ^ 119 := by
    have : m * 2 ^ i < 2 ^ 53 * 2 ^ 66 := by nlinarith
    simpa [← pow_add] using this
  have hdenlo : 2 ^ 52 ≤ n * 2 ^ j := by nlinarith
  have hdenhi : n * 2 ^ j < 2 ^ 119 := by
    have : n * 2 ^ j < 2 ^ 53 * 2 ^ 66 := by nlinarith
    simpa [← pow_add] using this
  have la1 := le_ilog2_of_pow_le _ 52 hnum hnumlo
  have la2 := ilog2_lt_of_lt_pow _ 119 hnum hnumhi
  have lb1 := le_ilog2_of_pow_le _ 52 hden hdenlo
  have lb2 := ilog2_lt_of_lt_pow _ 119 hden hdenhi
  obtain ⟨_, _, hE1, hE2⟩ := normExp_spec _ _ hnum hden
  obtain ⟨m2, e2, hr, _, _, _, _, herr⟩ :=
    round_normal_err (xor s t) (m * 2 ^ i) (n * 2 ^ j) hnum hden (by omega) (by omega)
  have hratio : ((m * 2 ^ i : Nat) : ℚ) / ((n * 2 ^ j : Nat) : ℚ) =
      ((m : ℚ) * (2 : ℚ) ^ e) / ((n : ℚ) * (2 : ℚ) ^ f) := by
    have h2 : (2 : ℚ) ≠ 0 := by norm_num
    have hnq : (n : ℚ) ≠ 0 := by exact_mod_cast hn0
    have he : (2 : ℚ) ^ e = (2 : ℚ) ^ (min e f) * (2 : ℚ) ^ i := by
      rw [← zpow_natCast, ← zpow_add₀ h2, ← hi]; congr 1; ring
    have hf : (2 : ℚ) ^ f = (2 : ℚ) ^ (min e f) * (2 : ℚ) ^ j := by
      rw [← zpow_natCast, ← zpow_add₀ h2, ← hj]; congr 1; ring
    rw [he, hf]
    push_cast
    have hp : (2 : ℚ) ^ (min e f) ≠ 0 := by positivity
    field_simp
    ring
  rw [hratio] at herr
  refine ⟨m2, e2, ?_, herr⟩
  simp only [div, hn0, if_false]
  rw [hi, hj]
  simpa using hr

theorem div_ofInt_finite (D N : Int) (hN : 1 ≤ N) (hD : D.natAbs < 2 ^ 64)
    (hN2 : N.natAbs < 2 ^ 64) :
    ∃ (m : Nat) (e : Int), div (ofInt D) (ofInt N) = .fin (decide (D < 0)) m e := by
  have hNneg : decide (N < 0) = false := by simp; omega
  obtain ⟨n, f, hn, hn1, hn2, hf1, hf2⟩ :=
    round_nat_bounds (decide (N < 0)) N.natAbs (by omega) hN2
  have hn0 : n ≠ 0 := by
    have : 0 < 2 ^ 52 := by norm_num
    omega
  by_cases hD0 : D = 0
  · subst hD0
    refine ⟨0, -1074, ?_⟩
    have h0 : ofInt 0 = .fin false 0 (-1074) := by decide
    have hN' : ofInt N = .fin (decide (N < 0)) n f := hn
    rw [h0, hN']
    simp [div, hn0, round, hNneg]
  · obtain ⟨m, e, hm, hm1, hm2, he1, he2⟩ :=
      round_nat_bounds (decide (D < 0)) D.natAbs (by omega) hD
    obtain ⟨m2, e2, hdiv, _⟩ :=
      div_fin_err (decide (D < 0)) (decide (N < 0)) m n e f hm1 hm2 hn1 hn2 he1 he2 hf1 hf2
    refine ⟨m2, e2, ?_⟩
    unfold ofInt
    rw [hm, hn, hdiv, hNneg]
    simp

theorem div_ofInt_err (D N : Int) (hN : 1 ≤ N) (hD : D.natAbs < 2 ^ 53)
    (hN2 : N.natAbs < 2 ^ 53) :
    ∃ (m : Nat) (e : Int), div (ofInt D) (ofInt N) = .fin (decide (D < 0)) m e ∧
      |(m : ℚ) * (2 : ℚ) ^ e - (D.natAbs : ℚ) / (N.natAbs : ℚ)| ≤
        (D.natAbs : ℚ) / (N.natAbs : ℚ) / 2 ^ 53 := by
  have hNneg : decide (N < 0) = false := by simp; omega
  obtain ⟨n, f, hn, hn1, hn2, hf1, hf2, hnv⟩ :=
    round_nat_exact (decide (N < 0)) N.natAbs (by omega) hN2
  have hn0 : n ≠ 0 := by
    have : 0 < 2 ^ 52 := by norm_num
    omega
  by_cases hD0 : D = 0
  · subst hD0
    refine ⟨0, -1074, ?_, ?_⟩
    · have h0 : ofInt 0 = .fin false 0 (-1074) := by decide
      have hN' : ofInt N = .fin (decide (N < 0)) n f := hn
      rw [h0, hN']
      simp [div, hn0, round, hNneg]
    · simp
  · obtain ⟨m, e, hm, hm1, hm2, he1, he2, hmv⟩ :=
      round_nat_exact (decide (D < 0)) D.natAbs (by omega) hD
    obtain ⟨m2, e2, hdiv, herr⟩ :=
      div_fin_err (decide (D < 0)) (decide (N < 0)) m n e f hm1 hm2 hn1 hn2 he1 he2 hf1 hf2
    rw [hmv, hnv] at herr
    refine ⟨m2, e2, ?_, herr⟩
    unfold ofInt
    rw [hm, hn, hdiv, hNneg]
    simp

theorem toRat_fin_sub (neg : Bool) (m : Nat) (e : Int) (D N : Int) (hN : 1 ≤ N)
    (hneg : neg = decide (D < 0)) :
    |((if neg then -1 else 1) * (m : ℚ) * (2 : ℚ) ^ e) - (D : ℚ) / (N : ℚ)| =
      |(m : ℚ) * (2 : ℚ) ^ e - (D.natAbs : ℚ) / (N.natAbs : ℚ)| ∧
    |(D : ℚ) / (N : ℚ)| = (D.natAbs : ℚ) / (N.natAbs : ℚ) := by
  have hNq : (N.natAbs : ℚ) = (N : ℚ) := by
    rw [Nat.cast_natAbs, abs_of_nonneg (by omega : (0 : Int) ≤ N)]
  have hNpos : (0 : ℚ) < (N : ℚ) := by exact_mod_cast (by omega : (0 : Int) < N)
  rw [hNq]
  by_cases hD : D < 0
  · have hDq : (D.natAbs : ℚ) = -(D : ℚ) := by
      rw [Nat.cast_natAbs, abs_of_neg hD]; push_cast; ring
    have hDneg : (D : ℚ) < 0 := by exact_mod_cast hD
    subst hneg
    simp only [hD, decide_True, if_true, hDq]
    constructor
    · rw [← abs_neg]
      congr 1
      ring
    · rw [abs_div, abs_of_neg hDneg, abs_of_pos hNpos]
  · have hDq : (D.natAbs : ℚ) = (D : ℚ) := by
      rw [Nat.cast_natAbs, abs_of_nonneg (by omega : (0 : Int) ≤ D)]
    have hDnn : (0 : ℚ) ≤ (D : ℚ) := by exact_mod_cast (by omega : (0 : Int) ≤ D)
    subst hneg
    simp only [hD, decide_False, hDq]
    constructor
    · congr 1
      simp
    · rw [abs_div, abs_of_nonneg hDnn, abs_of_pos hNpos]

end Float64

/-! ## `CalculateImpact` -/

namespace collector

/-- C1: after `CalculateImpact(N)` with `N ≥ 1` the `Impact` field is the
`float64` quotient of `DependsCount` and `N`, both converted to `float64`, and
no other field changes. For 64-bit operands that quotient is a finite number;
when both operands are below `2^53` in magnitude (so that the conversions are
exact) it is within one rounding, a relative error of `2^-53`, of the rational
`DependsCount / N`; and for `N = 10` and `DependsCount` from 0 to 9 it is the
`float64` written `0.0`, `0.1`, ..., `0.9`, given here by its 64 bits. -/
theorem C1_calculateImpact_quotient (pkg : PackageInfo) (N : Int) (hN : 1 ≤ N) :
    (pkg.CalculateImpact N).Impact =
      Float64.div (Float64.ofInt pkg.DependsCount) (Float64.ofInt N) ∧
    pkg.CalculateImpact N = { pkg with Impact := (pkg.CalculateImpact N).Impact } ∧
    (-2 ^ 63 ≤ pkg.DependsCount → pkg.DependsCount < 2 ^ 63 → N < 2 ^ 63 →
      (pkg.CalculateImpact N).Impact.isFinite = true) ∧
    (-2 ^ 53 < pkg.DependsCount → pkg.DependsCount < 2 ^ 53 → N < 2 ^ 53 →
      ∃ v : ℚ, (pkg.CalculateImpact N).Impact.toRat = some v ∧
        |v - (pkg.DependsCount : ℚ) / (N : ℚ)| ≤
          |(pkg.DependsCount : ℚ) / (N : ℚ)| / 2 ^ 53) ∧
    (N = 10 → 0 ≤ pkg.DependsCount → pkg.DependsCount ≤ 9 →
      some (pkg.CalculateImpact N).Impact.toBits =
        [0x0000000000000000, 0x3FB999999999999A, 0x3FC999999999999A, 0x3FD3333333333333,
          0x3FD999999999999A, 0x3FE0000000000000, 0x3FE3333333333333, 0x3FE6666666666666,
          0x3FE999999999999A, 0x3FECCCCCCCCCCCCD][pkg.DependsCount.toNat]?) := by
  refine ⟨rfl, rfl, ?_, ?_, ?_⟩
  · intro h1 h2 h3
    obtain ⟨m, e, h⟩ := Float64.div_ofInt_finite pkg.DependsCount N hN (by omega) (by omega)
    simp only [PackageInfo.CalculateImpact, h, Float64.isFinite]
  · intro h1 h2 h3
    obtain ⟨m, e, h, herr⟩ :=
      Float64.div_ofInt_err pkg.DependsCount N hN (by omega) (by omega)
    obtain ⟨e1, e2⟩ := Float64.toRat_fin_sub (decide (pkg.DependsCount < 0)) m e
      pkg.DependsCount N hN rfl
    refine ⟨(if decide (pkg.DependsCount < 0) = true then -1 else 1) * (m : ℚ) * (2 : ℚ) ^ e,
      by simp only [PackageInfo.CalculateImpact, h, Float64.toRat], ?_⟩
    rw [e1, e2]
    exact herr
  · intro h10 h0 h9
    subst h10
    simp only [PackageInfo.CalculateImpact]
    generalize pkg.DependsCount = d at h0 h9
    interval_cases d <;> decide

/-- C1, at a package with `DependsCount = 7` in a universe of 10 packages: the
impact is the `float64` written `0.7`. -/
theorem C1_calculateImpact_quotient_witness :
    (1 : Int) ≤ 10 ∧ samplePackage.DependsCount = 7 ∧
    (samplePackage.CalculateImpact 10).Impact.isFinite = true ∧
    (samplePackage.CalculateImpact 10).Impact.toBits = 0x3FE6666666666666 :=
  ⟨by decide, rfl,
    (C1_calculateImpact_quotient samplePackage 10 (by decide)).2.2.1
      (by decide) (by decide) (by decide),
    by
      have h := (C1_calculateImpact_quotient samplePackage 10 (by decide)).2.2.2.2
        rfl (by decide) (by decide)
      simpa [samplePackage, NewPackageInfo] using h⟩

end collector

end OpenSift
